import Mathlib

/-!
Verification of the QuestionPy SDK question-UI rendering pipeline
(`questionpy_sdk/webserver/question_ui/__init__.py` and
`questionpy_sdk/webserver/question_ui/errors.py`) against its
natural-language specification.

The Python code is shallowly embedded: the lxml document tree becomes the
inductive type `Node` (elements carry namespace, tag, attributes, the
lxml-style `text`/`tail` text slots and a best-effort source line);
each transformation pass becomes a Lean function on `Node`; the
diagnostics collection becomes a sorted-insert list.  External library
boundaries (the HTML fragment parser, the sanitizer, the seeded
Mersenne-Twister shuffle, IEEE float formatting) are abstracted as
function parameters, since no claim depends on their internals.
-/

/- ============================================================
   Diagnostics (errors.py)
   ============================================================ -/

/-- The taxonomy of diagnostic kinds defined in errors.py. -/
inductive RenderErrorKind where
  | xmlSyntaxErr
  | invalidAttributeValueErr
  | conversionErr
  | placeholderReferenceErr
  | invalidCleanOptionErr
  | unknownElementErr
deriving DecidableEq, Repr

/-- A diagnostic record: its taxonomy kind and its best-effort source line
(`RenderError.line` in errors.py, `None` when unknown).  Message templates
carry no behaviour relevant to the claims and are omitted. -/
structure RenderError where
  kind : RenderErrorKind
  line : Option Nat
deriving DecidableEq, Repr

/-- errors.py `RenderError.order`: the sort key is `self.line or 0`, i.e. the
line number with 0 for an unknown line; `XMLSyntaxError.order` overrides this
to -1 so that syntax errors always sort first. -/
def RenderError.order (e : RenderError) : Int :=
  if e.kind = RenderErrorKind.xmlSyntaxErr then -1 else (e.line.getD 0 : Int)

/-- errors.py `RenderErrorCollection.insert`, which is
`bisect.insort(self._errors, error, key=attrgetter("order"))`: insert after
all existing entries whose order key is less than or equal (right-biased
insertion, hence stable for equal keys). -/
def insort (e : RenderError) : List RenderError → List RenderError
  | [] => [e]
  | x :: xs => if e.order < x.order then e :: x :: xs else x :: insort e xs

/-- A sequence of `insert` calls on a fresh `RenderErrorCollection`. -/
def insertAll (l : List RenderError) : List RenderError :=
  l.foldl (fun acc e => insort e acc) []

theorem insort_length (e : RenderError) (l : List RenderError) :
    (insort e l).length = l.length + 1 := by
  induction l with
  | nil => simp [insort]
  | cons x xs ih =>
    simp only [insort]
    split
    · simp
    · simp [ih]

theorem insort_mem (e b : RenderError) (l : List RenderError) :
    b ∈ insort e l ↔ b = e ∨ b ∈ l := by
  induction l with
  | nil => simp [insort]
  | cons x xs ih =>
    simp only [insort]
    split
    · simp [List.mem_cons]
    · simp only [List.mem_cons, ih]
      tauto

theorem insort_sorted (e : RenderError) (l : List RenderError)
    (h : l.Pairwise (fun a b => a.order ≤ b.order)) :
    (insort e l).Pairwise (fun a b => a.order ≤ b.order) := by
  induction l with
  | nil => simp [insort]
  | cons x xs ih =>
    simp only [insort]
    rcases List.pairwise_cons.mp h with ⟨hx, hxs⟩
    split
    · rename_i hlt
      refine List.pairwise_cons.mpr ⟨?_, h⟩
      intro b hb
      rcases List.mem_cons.mp hb with rfl | hb2
      · omega
      · have := hx b hb2
        omega
    · rename_i hge
      refine List.pairwise_cons.mpr ⟨?_, ih hxs⟩
      intro b hb
      rcases (insort_mem e b xs).mp hb with rfl | hb2
      · omega
      · exact hx b hb2

theorem insort_filter_eq (e : RenderError) (l : List RenderError) (k : Int)
    (hs : l.Pairwise (fun a b => a.order ≤ b.order)) :
    (insort e l).filter (fun x => x.order == k)
      = if e.order = k then l.filter (fun x => x.order == k) ++ [e]
        else l.filter (fun x => x.order == k) := by
  induction l with
  | nil =>
    by_cases h : e.order = k
    · simp [insort, List.filter_cons, h]
    · simp [insort, List.filter_cons, h]
  | cons x xs ih =>
    rcases List.pairwise_cons.mp hs with ⟨hx, hxs⟩
    simp only [insort]
    split
    · rename_i hlt
      by_cases hek : e.order = k
      · -- everything in x :: xs has order strictly above e.order = k, so the
        -- old filter at key k is empty and appending e equals prepending it
        have hnone : (x :: xs).filter (fun y => y.order == k) = [] := by
          rw [List.filter_eq_nil_iff]
          intro a ha
          rcases List.mem_cons.mp ha with rfl | ha2
          · simp only [beq_iff_eq]
            omega
          · have := hx a ha2
            simp only [beq_iff_eq]
            omega
        rw [if_pos hek, hnone, List.nil_append,
          List.filter_cons_of_pos (by simp [hek]), hnone]
      · rw [if_neg hek, List.filter_cons_of_neg (by simp [hek])]
    · rename_i hge
      by_cases hxk : x.order = k
      · rw [List.filter_cons_of_pos (by simp [hxk]),
          List.filter_cons_of_pos (by simp [hxk]), ih hxs]
        split <;> simp
      · rw [List.filter_cons_of_neg (by simp [hxk]),
          List.filter_cons_of_neg (by simp [hxk]), ih hxs]

theorem insertAll_go (l : List RenderError) (acc : List RenderError)
    (hs : acc.Pairwise (fun a b => a.order ≤ b.order)) :
    (l.foldl (fun c e => insort e c) acc).Pairwise (fun a b => a.order ≤ b.order)
    ∧ (∀ k : Int, (l.foldl (fun c e => insort e c) acc).filter (fun x => x.order == k)
        = acc.filter (fun x => x.order == k) ++ l.filter (fun x => x.order == k))
    ∧ (l.foldl (fun c e => insort e c) acc).length = acc.length + l.length := by
  induction l generalizing acc with
  | nil => simp [hs]
  | cons e rest ih =>
    have hs' := insort_sorted e acc hs
    rcases ih (insort e acc) hs' with ⟨h1, h2, h3⟩
    refine ⟨h1, ?_, ?_⟩
    · intro k
      rw [List.foldl_cons, h2 k, insort_filter_eq e acc k hs]
      by_cases hek : e.order = k
      · rw [if_pos hek, List.filter_cons_of_pos (by simp [hek]), List.append_assoc]
        simp
      · rw [if_neg hek, List.filter_cons_of_neg (by simp [hek])]
    · rw [List.foldl_cons, h3, insort_length, List.length_cons]
      omega

/-- C6: after any sequence of inserts on a RenderErrorCollection, iteration
yields the diagnostics in ascending order of their order key (the source line,
0 when unknown, and -1 for XML syntax errors so they always come first);
diagnostics with equal order keep their relative insertion order (the filter
at every key equals the insertion sequence's filter), and the length equals
the number of inserts. -/
theorem render_error_collection_sorted_stable (l : List RenderError) :
    (insertAll l).Pairwise (fun a b => a.order ≤ b.order)
    ∧ (∀ k : Int, (insertAll l).filter (fun x => x.order == k)
        = l.filter (fun x => x.order == k))
    ∧ (insertAll l).length = l.length
    ∧ (∀ e : RenderError, e.kind ≠ RenderErrorKind.xmlSyntaxErr →
        e.order = (e.line.getD 0 : Int))
    ∧ (∀ e e' : RenderError, e.kind = RenderErrorKind.xmlSyntaxErr →
        e'.kind ≠ RenderErrorKind.xmlSyntaxErr → e.order < e'.order) := by
  rcases insertAll_go l [] (by simp) with ⟨h1, h2, h3⟩
  refine ⟨h1, ?_, ?_, ?_, ?_⟩
  · intro k
    rw [insertAll, h2 k]
    simp
  · rw [insertAll, h3]
    simp
  · intro e he
    simp [RenderError.order, he]
  · intro e e' he he'
    simp only [RenderError.order, if_pos he, if_neg he']
    omega

/- ============================================================
   Shuffled-index rendering (_int_to_roman, _int_to_letter,
   _replace_shuffled_indices format dispatch)
   ============================================================ -/

/-- The value/symbol table of `_int_to_roman`. -/
def romanVals : List (Nat × String) :=
  [(1000, "M"), (900, "CM"), (500, "D"), (400, "CD"), (100, "C"), (90, "XC"),
   (50, "L"), (40, "XL"), (10, "X"), (9, "IX"), (5, "V"), (4, "IV"), (1, "I")]

/-- The inner loop of `_int_to_roman` appends the symbol `index // val` times. -/
def repeatStr (k : Nat) (s : String) : String :=
  String.join (List.replicate k s)

/-- The greedy loop of `_int_to_roman`: for each (value, symbol) pair in order,
append the symbol `index // value` times and continue with `index % value`
(repeated subtraction of `value` leaves exactly `index % value`). -/
def intToRomanAux : List (Nat × String) → Nat → String
  | [], _ => ""
  | (v, s) :: rest, n => repeatStr (n / v) s ++ intToRomanAux rest (n % v)

/-- `_int_to_roman`: greedy subtractive-notation conversion over `romanVals`. -/
def intToRoman (n : Nat) : String := intToRomanAux romanVals n

/-- `_int_to_letter`: `chr(ord("a") + index - 1)`, a single character. -/
def intToLetter (n : Nat) : String := String.singleton (Char.ofNat (96 + n))

/-- Reference definition (from the spec's words, for comparison): the standard
per-digit Roman numeral tables in subtractive notation, valid for 0..3999. -/
def romanOnes : List String :=
  ["", "I", "II", "III", "IV", "V", "VI", "VII", "VIII", "IX"]

def romanTens : List String :=
  ["", "X", "XX", "XXX", "XL", "L", "LX", "LXX", "LXXX", "XC"]

def romanHundreds : List String :=
  ["", "C", "CC", "CCC", "CD", "D", "DC", "DCC", "DCCC", "CM"]

def romanThousands : List String := ["", "M", "MM", "MMM"]

/-- Reference definition (from the spec's words): the standard subtractive
Roman numeral of n, assembled digit by digit. -/
def romanSpec (n : Nat) : String :=
  (romanThousands.getD (n / 1000) "") ++ (romanHundreds.getD (n % 1000 / 100) "")
    ++ (romanTens.getD (n % 100 / 10) "") ++ (romanOnes.getD (n % 10) "")

/-- Reference definition (from the spec's words): the standard bijective
base-26 letter representation (1 -> a, 26 -> z, 27 -> aa, ...). -/
def base26Spec (n : Nat) : String :=
  if n = 0 then ""
  else base26Spec ((n - 1) / 26) ++ String.singleton (Char.ofNat (97 + (n - 1) % 26))
termination_by n
decreasing_by
  have h1 : (n - 1) / 26 ≤ n - 1 := Nat.div_le_self _ _
  omega

set_option maxRecDepth 4000 in
theorem intToRoman_block0 : ∀ n < 500, intToRoman n = romanSpec n := by decide

set_option maxRecDepth 4000 in
theorem intToRoman_block1 : ∀ n < 500, intToRoman (500 + n) = romanSpec (500 + n) := by decide

set_option maxRecDepth 4000 in
theorem intToRoman_block2 : ∀ n < 500, intToRoman (1000 + n) = romanSpec (1000 + n) := by decide

set_option maxRecDepth 4000 in
theorem intToRoman_block3 : ∀ n < 500, intToRoman (1500 + n) = romanSpec (1500 + n) := by decide

set_option maxRecDepth 4000 in
theorem intToRoman_block4 : ∀ n < 500, intToRoman (2000 + n) = romanSpec (2000 + n) := by decide

set_option maxRecDepth 4000 in
theorem intToRoman_block5 : ∀ n < 500, intToRoman (2500 + n) = romanSpec (2500 + n) := by decide

set_option maxRecDepth 4000 in
theorem intToRoman_block6 : ∀ n < 500, intToRoman (3000 + n) = romanSpec (3000 + n) := by decide

set_option maxRecDepth 4000 in
theorem intToRoman_block7 : ∀ n < 500, intToRoman (3500 + n) = romanSpec (3500 + n) := by decide

/-- The code's greedy Roman conversion agrees with the standard per-digit
tables on the whole practical range. -/
theorem intToRoman_eq_romanSpec (n : Nat) (h : n ≤ 3999) : intToRoman n = romanSpec n := by
  by_cases h0 : n < 500
  · exact intToRoman_block0 n h0
  by_cases h1 : n < 1000
  · have := intToRoman_block1 (n - 500) (by omega)
    rwa [show 500 + (n - 500) = n by omega] at this
  by_cases h2 : n < 1500
  · have := intToRoman_block2 (n - 1000) (by omega)
    rwa [show 1000 + (n - 1000) = n by omega] at this
  by_cases h3 : n < 2000
  · have := intToRoman_block3 (n - 1500) (by omega)
    rwa [show 1500 + (n - 1500) = n by omega] at this
  by_cases h4 : n < 2500
  · have := intToRoman_block4 (n - 2000) (by omega)
    rwa [show 2000 + (n - 2000) = n by omega] at this
  by_cases h5 : n < 3000
  · have := intToRoman_block5 (n - 2500) (by omega)
    rwa [show 2500 + (n - 2500) = n by omega] at this
  by_cases h6 : n < 3500
  · have := intToRoman_block6 (n - 3000) (by omega)
    rwa [show 3000 + (n - 3000) = n by omega] at this
  have := intToRoman_block7 (n - 3500) (by omega)
  rwa [show 3500 + (n - 3500) = n by omega] at this

/-- Model of Python str.lower (ASCII case mapping, character by character). -/
def strToLower (s : String) : String := String.mk (s.data.map Char.toLower)

/-- Model of Python str.upper (ASCII case mapping, character by character). -/
def strToUpper (s : String) : String := String.mk (s.data.map Char.toUpper)

/-- The format dispatch of `_replace_shuffled_indices` (lines 80-95): maps the
format attribute (default "123") and the 1-based index of the shuffled child to
the replacement text; `none` models the invalid-format branch (which emits
`InvalidAttributeValueError` and removes the marker preserving its tail). -/
def shuffledIndexText (formatStyle : String) (index : Nat) : Option String :=
  if formatStyle = "123" then some (Nat.repr index)
  else if formatStyle = "abc" then some (strToLower (intToLetter index))
  else if formatStyle = "ABC" then some (strToUpper (intToLetter index))
  else if formatStyle = "iii" then some (strToLower (intToRoman index))
  else if formatStyle = "III" then some (strToUpper (intToRoman index))
  else none

theorem intToLetter_small : ∀ n < 26, intToLetter (n + 1) = base26Spec (n + 1) := by
  intro n hn
  rw [base26Spec]
  rw [if_neg (by omega)]
  have h1 : (n + 1 - 1) / 26 = 0 := by omega
  have h2 : (n + 1 - 1) % 26 = n := by omega
  rw [h1, h2, base26Spec, if_pos rfl]
  simp only [intToLetter]
  rw [show 96 + (n + 1) = 97 + n by omega]
  rfl

theorem base26Spec_27 : base26Spec 27 = "aa" := by
  rw [base26Spec, if_neg (by omega)]
  norm_num
  rw [base26Spec, if_neg (by omega)]
  norm_num
  rw [base26Spec, if_pos rfl]
  rfl

/-- C3 counterexample: at new position 27 (within the claimed range 1..3999) a
marker with format "abc" is not replaced by the standard base-26 letter
representation "aa"; the code emits the single character after "z" instead. -/
theorem shuffled_index_letter27_cex :
    base26Spec 27 = "aa"
    ∧ shuffledIndexText "abc" 27 ≠ some (strToLower (base26Spec 27)) := by
  refine ⟨base26Spec_27, ?_⟩
  rw [base26Spec_27]
  decide

/-- C3 (amended): for a shuffled child at new 1-based position n with
1 <= n <= 3999, the marker text for format "123" is the decimal digits of n,
for "iii" / "III" the lowercase/uppercase standard subtractive-notation Roman
numeral, and — only for 1 <= n <= 26 — for "abc" / "ABC" the lowercase/uppercase
standard (single) base-26 letter; beyond 26 the letter conversion produces a
single non-letter character instead of the multi-letter base-26 form. -/
theorem shuffled_index_formats (n : Nat) (h1 : 1 ≤ n) (h2 : n ≤ 3999) :
    shuffledIndexText "123" n = some (Nat.repr n)
    ∧ shuffledIndexText "iii" n = some (strToLower (romanSpec n))
    ∧ shuffledIndexText "III" n = some (strToUpper (romanSpec n))
    ∧ (n ≤ 26 → shuffledIndexText "abc" n = some (strToLower (base26Spec n))
        ∧ shuffledIndexText "ABC" n = some (strToUpper (base26Spec n))) := by
  refine ⟨by simp [shuffledIndexText], ?_, ?_, ?_⟩
  · simp [shuffledIndexText, intToRoman_eq_romanSpec n h2]
  · simp [shuffledIndexText, intToRoman_eq_romanSpec n h2]
  · intro h26
    have hl : intToLetter n = base26Spec n := by
      have := intToLetter_small (n - 1) (by omega)
      rwa [show n - 1 + 1 = n by omega] at this
    constructor
    · simp [shuffledIndexText, hl]
    · simp [shuffledIndexText, hl]

/-- Witness for C3 at n = 3. -/
theorem shuffled_index_formats_witness :
    (1 ≤ 3 ∧ (3 : Nat) ≤ 3999)
    ∧ (shuffledIndexText "123" 3 = some (Nat.repr 3)
      ∧ shuffledIndexText "iii" 3 = some (strToLower (romanSpec 3))
      ∧ shuffledIndexText "III" 3 = some (strToUpper (romanSpec 3))
      ∧ ((3 : Nat) ≤ 26 → shuffledIndexText "abc" 3 = some (strToLower (base26Spec 3))
          ∧ shuffledIndexText "ABC" 3 = some (strToUpper (base26Spec 3)))) :=
  ⟨⟨by norm_num, by norm_num⟩, shuffled_index_formats 3 (by norm_num) (by norm_num)⟩

/- ============================================================
   QPY URL rewriting (_replace_qpy_urls)
   ============================================================ -/

/-- First character of a URL path segment in the source regex: `[a-z_]`. -/
def isSegStartChar (c : Char) : Bool := ('a' ≤ c && c ≤ 'z') || c = '_'

/-- Continuation character of a URL path segment: `[a-z0-9_]`. -/
def isSegChar (c : Char) : Bool :=
  ('a' ≤ c && c ≤ 'z') || ('0' ≤ c && c ≤ '9') || c = '_'

/-- A whole segment accepted by `[a-z_][a-z0-9_]\x7b0,126\x7d`. -/
def segOk : List Char → Bool
  | [] => false
  | c :: cs => isSegStartChar c && cs.all isSegChar && cs.length ≤ 126

/-- Strips an expected literal prefix, returning the remainder on success. -/
def stripPrefixChars : List Char → List Char → Option (List Char)
  | [], l => some l
  | _ :: _, [] => none
  | p :: ps, c :: cs => if c = p then stripPrefixChars ps cs else none

/-- One segment plus its terminating slash, as matched by the source regex
`[a-z_][a-z0-9_]\x7b0,126\x7d/`.  The bounded greedy quantifier takes the
maximal run of segment characters; since a segment character can never satisfy
the following literal `/`, backtracking to a shorter run always fails, so the
regex matches exactly when the maximal run has length at most 126 and is
followed by `/`. -/
def matchSegment : List Char → Option (List Char × List Char)
  | [] => none
  | c :: rest =>
    if isSegStartChar c then
      if (rest.takeWhile isSegChar).length ≤ 126 then
        match rest.dropWhile isSegChar with
        | d :: tail =>
          if d = '/' then some (c :: rest.takeWhile isSegChar, tail) else none
        | [] => none
      else none
    else none

def qpyUrlStart : List Char := ['q', 'p', 'y', ':', '/', '/']

def staticChars : List Char := ['s', 't', 'a', 't', 'i', 'c']

def staticSlash : List Char := ['s', 't', 'a', 't', 'i', 'c', '/']

def staticPrivateChars : List Char :=
  ['s', 't', 'a', 't', 'i', 'c', '-', 'p', 'r', 'i', 'v', 'a', 't', 'e']

def staticPrivateSlash : List Char :=
  ['s', 't', 'a', 't', 'i', 'c', '-', 'p', 'r', 'i', 'v', 'a', 't', 'e', '/']

def workerPrefix : List Char := ['/', 'w', 'o', 'r', 'k', 'e', 'r', '/']

def fileSlash : List Char := ['f', 'i', 'l', 'e', '/']

/-- The kind alternation `(static|static-private)/` of the source regex: the
`static` alternative is tried first but requires a following `/`, so the two
alternatives act as mutually exclusive literal prefixes.  Returns the matched
kind (without slash) and the remainder. -/
def kindMatch (afterScheme : List Char) : Option (List Char × List Char) :=
  match stripPrefixChars staticSlash afterScheme with
  | some r => some (staticChars, r)
  | none =>
    match stripPrefixChars staticPrivateSlash afterScheme with
    | some r => some (staticPrivateChars, r)
    | none => none

/-- A match of the source regex
`qpy://(static|static-private)/((?:[a-z_][a-z0-9_]\x7b0,126\x7d/)\x7b2\x7d)`
at the head of the input: the literal scheme, the kind alternation, then
exactly two segments.  Returns (kind, namespace, short-name, remainder after
the match). -/
def tryMatchUrl (l : List Char) : Option (List Char × List Char × List Char × List Char) :=
  (stripPrefixChars qpyUrlStart l).bind fun afterScheme =>
  (kindMatch afterScheme).bind fun kindPair =>
  (matchSegment kindPair.2).bind fun nsPair =>
  (matchSegment nsPair.2).bind fun snPair =>
  some (kindPair.1, nsPair.1, snPair.1, snPair.2)

/-- The replacement `/worker/\2file/\1/` where `\2` is `ns/sn/` and `\1` the
kind. -/
def replacementFor (kind ns sn : List Char) : List Char :=
  workerPrefix ++ ns ++ '/' :: sn ++ '/' :: fileSlash ++ kind ++ ['/']

/-- The scan loop of `re.sub`: try a match at every position, from left to
right; on a match emit the replacement and continue after the matched region,
otherwise copy one character.  Fuel-indexed for structural recursion; fuel at
least the input length never runs out since a match always consumes at least
one character. -/
def replaceQpyUrlsAux : Nat → List Char → List Char
  | 0, l => l
  | _ + 1, [] => []
  | fuel + 1, c :: rest =>
    match tryMatchUrl (c :: rest) with
    | some (kind, ns, sn, after) =>
      replacementFor kind ns sn ++ replaceQpyUrlsAux fuel after
    | none => c :: replaceQpyUrlsAux fuel rest

def replaceQpyUrlsList (l : List Char) : List Char :=
  replaceQpyUrlsAux l.length l

/-- `_replace_qpy_urls`:
`re.sub(r"qpy://(static|static-private)/((?:[a-z_][a-z0-9_]\x7b0,126\x7d/)\x7b2\x7d)", r"/worker/\2file/\1/", xml)`. -/
def replaceQpyUrls (s : String) : String := String.mk (replaceQpyUrlsList s.data)

theorem length_dropWhile_le' (p : Char → Bool) (l : List Char) :
    (l.dropWhile p).length ≤ l.length := by
  induction l with
  | nil => simp [List.dropWhile]
  | cons c cs ih =>
    simp only [List.dropWhile]
    split
    · simp only [List.length_cons]
      omega
    · simp

theorem stripPrefixChars_length (p l r : List Char) (h : stripPrefixChars p l = some r) :
    r.length + p.length = l.length := by
  induction p generalizing l with
  | nil =>
    simp [stripPrefixChars] at h
    simp [h]
  | cons a ps ih =>
    cases l with
    | nil => simp [stripPrefixChars] at h
    | cons c cs =>
      simp only [stripPrefixChars] at h
      split at h
      · have := ih cs h
        simp only [List.length_cons]
        omega
      · exact absurd h (by simp)

theorem matchSegment_length (l seg r : List Char) (h : matchSegment l = some (seg, r)) :
    r.length < l.length := by
  cases l with
  | nil => simp [matchSegment] at h
  | cons c rest =>
    simp only [matchSegment] at h
    by_cases h1 : isSegStartChar c = true
    case neg => rw [if_neg h1] at h; simp at h
    rw [if_pos h1] at h
    by_cases h2 : (rest.takeWhile isSegChar).length ≤ 126
    case neg => rw [if_neg h2] at h; simp at h
    rw [if_pos h2] at h
    cases hd : rest.dropWhile isSegChar with
    | nil => rw [hd] at h; simp at h
    | cons d tail =>
      rw [hd] at h
      by_cases h3 : d = '/'
      case neg => simp [h3] at h
      subst h3
      simp only [if_pos, Option.some.injEq, Prod.mk.injEq] at h
      obtain ⟨hseg, hr⟩ := h
      subst hr
      have hdl := length_dropWhile_le' isSegChar rest
      rw [hd] at hdl
      simp only [List.length_cons] at hdl ⊢
      omega

theorem kindMatch_length (a kind r : List Char) (h : kindMatch a = some (kind, r)) :
    r.length < a.length := by
  unfold kindMatch at h
  cases hK1 : stripPrefixChars staticSlash a with
  | some r1 =>
    rw [hK1] at h
    simp only [Option.some.injEq, Prod.mk.injEq] at h
    have := stripPrefixChars_length _ _ _ hK1
    simp only [staticSlash, List.length_cons, List.length_nil] at this
    obtain ⟨-, hr⟩ := h
    subst hr
    omega
  | none =>
    rw [hK1] at h
    cases hK2 : stripPrefixChars staticPrivateSlash a with
    | none => rw [hK2] at h; simp at h
    | some r2 =>
      rw [hK2] at h
      simp only [Option.some.injEq, Prod.mk.injEq] at h
      have := stripPrefixChars_length _ _ _ hK2
      simp only [staticPrivateSlash, List.length_cons, List.length_nil] at this
      obtain ⟨-, hr⟩ := h
      subst hr
      omega

theorem tryMatchUrl_length (l kind ns sn after : List Char)
    (h : tryMatchUrl l = some (kind, ns, sn, after)) : after.length < l.length := by
  simp only [tryMatchUrl, Option.bind_eq_some] at h
  obtain ⟨afterScheme, hScheme, kindPair, hKind, nsPair, hS1, snPair, hS2, hres⟩ := h
  simp only [Option.some.injEq, Prod.mk.injEq] at hres
  obtain ⟨-, -, -, hafter⟩ := hres
  subst hafter
  have d1 := stripPrefixChars_length _ _ _ hScheme
  simp only [qpyUrlStart, List.length_cons, List.length_nil] at d1
  have d2 := kindMatch_length _ _ _ (by rw [hKind])
  have d3 := matchSegment_length _ _ _ (by rw [hS1])
  have d4 := matchSegment_length _ _ _ (by rw [hS2])
  omega

theorem stripPrefixChars_self_append (p r : List Char) :
    stripPrefixChars p (p ++ r) = some r := by
  induction p with
  | nil => simp [stripPrefixChars]
  | cons c cs ih => simp [stripPrefixChars, ih]

theorem takeWhile_all_append (p : Char → Bool) (cs t : List Char) (y : Char)
    (hall : cs.all p = true) (hy : p y = false) :
    (cs ++ y :: t).takeWhile p = cs ∧ (cs ++ y :: t).dropWhile p = y :: t := by
  induction cs with
  | nil => simp [List.takeWhile, List.dropWhile, hy]
  | cons c rest ih =>
    simp only [List.all_cons, Bool.and_eq_true] at hall
    have := ih hall.2
    simp [List.takeWhile, List.dropWhile, hall.1, this.1, this.2]

theorem matchSegment_of_segOk (ns t : List Char) (h : segOk ns = true) :
    matchSegment (ns ++ ('/' :: t)) = some (ns, t) := by
  cases ns with
  | nil => simp [segOk] at h
  | cons c cs =>
    simp only [segOk, Bool.and_eq_true, decide_eq_true_eq] at h
    obtain ⟨⟨h1, h2⟩, h3⟩ := h
    have hslash : isSegChar '/' = false := by decide
    obtain ⟨htake, hdrop⟩ := takeWhile_all_append isSegChar cs t '/' h2 hslash
    simp only [List.cons_append, matchSegment, h1, if_pos, htake, hdrop]
    rw [if_pos (by omega)]

theorem kindMatch_static (r : List Char) :
    kindMatch (staticSlash ++ r) = some (staticChars, r) := by
  simp [kindMatch, stripPrefixChars_self_append]

theorem kindMatch_staticPrivate (r : List Char) :
    kindMatch (staticPrivateSlash ++ r) = some (staticPrivateChars, r) := by
  have hfail : stripPrefixChars staticSlash (staticPrivateSlash ++ r) = none := by
    simp [stripPrefixChars, staticSlash, staticPrivateSlash]
  simp [kindMatch, hfail, stripPrefixChars_self_append]

theorem tryMatchUrl_static (ns sn rest : List Char)
    (hns : segOk ns = true) (hsn : segOk sn = true) :
    tryMatchUrl (qpyUrlStart ++ (staticSlash ++ (ns ++ ('/' :: (sn ++ ('/' :: rest))))))
      = some (staticChars, ns, sn, rest) := by
  have h1 := stripPrefixChars_self_append qpyUrlStart
    (staticSlash ++ (ns ++ ('/' :: (sn ++ ('/' :: rest)))))
  have h2 := kindMatch_static (ns ++ ('/' :: (sn ++ ('/' :: rest))))
  have h3 := matchSegment_of_segOk ns (sn ++ ('/' :: rest)) hns
  have h4 := matchSegment_of_segOk sn rest hsn
  simp only [tryMatchUrl, h1, Option.some_bind, h2, h3, h4]

theorem tryMatchUrl_staticPrivate (ns sn rest : List Char)
    (hns : segOk ns = true) (hsn : segOk sn = true) :
    tryMatchUrl (qpyUrlStart ++ (staticPrivateSlash ++ (ns ++ ('/' :: (sn ++ ('/' :: rest))))))
      = some (staticPrivateChars, ns, sn, rest) := by
  have h1 := stripPrefixChars_self_append qpyUrlStart
    (staticPrivateSlash ++ (ns ++ ('/' :: (sn ++ ('/' :: rest)))))
  have h2 := kindMatch_staticPrivate (ns ++ ('/' :: (sn ++ ('/' :: rest))))
  have h3 := matchSegment_of_segOk ns (sn ++ ('/' :: rest)) hns
  have h4 := matchSegment_of_segOk sn rest hsn
  simp only [tryMatchUrl, h1, Option.some_bind, h2, h3, h4]

theorem replaceQpyUrlsAux_mono (f : Nat) : ∀ (g : Nat) (l : List Char),
    l.length ≤ f → l.length ≤ g → replaceQpyUrlsAux f l = replaceQpyUrlsAux g l := by
  induction f with
  | zero =>
    intro g l hf hg
    have : l = [] := List.eq_nil_of_length_eq_zero (by omega)
    subst this
    cases g <;> simp [replaceQpyUrlsAux]
  | succ f ih =>
    intro g l hf hg
    cases l with
    | nil => cases g <;> simp [replaceQpyUrlsAux]
    | cons c rest =>
      cases g with
      | zero => simp at hg
      | succ g2 =>
        simp only [replaceQpyUrlsAux]
        cases hm : tryMatchUrl (c :: rest) with
        | some quad =>
          obtain ⟨kind, ns, sn, after⟩ := quad
          have hl := tryMatchUrl_length _ _ _ _ _ hm
          simp only [List.length_cons] at hf hg hl
          simp only [hm]
          rw [ih g2 after (by omega) (by omega)]
        | none =>
          simp only [List.length_cons] at hf hg
          simp only [hm]
          rw [ih g2 rest (by omega) (by omega)]

theorem replaceQpyUrlsList_match (c : Char) (rest kind ns sn after : List Char)
    (h : tryMatchUrl (c :: rest) = some (kind, ns, sn, after)) :
    replaceQpyUrlsList (c :: rest)
      = replacementFor kind ns sn ++ replaceQpyUrlsList after := by
  have hl := tryMatchUrl_length _ _ _ _ _ h
  simp only [List.length_cons] at hl
  simp only [replaceQpyUrlsList, List.length_cons, replaceQpyUrlsAux, h]
  rw [replaceQpyUrlsAux_mono rest.length after.length after (by omega) (le_refl _)]

theorem replaceQpyUrlsList_nomatch (c : Char) (rest : List Char)
    (h : tryMatchUrl (c :: rest) = none) :
    replaceQpyUrlsList (c :: rest) = c :: replaceQpyUrlsList rest := by
  simp only [replaceQpyUrlsList, List.length_cons, replaceQpyUrlsAux, h]

/-- The claim's segment pattern, following the spec's words: starts with a
lowercase character and continues with at most 126 alphanumeric/underscore
characters. -/
def claimSegOk : List Char → Bool
  | [] => false
  | c :: cs =>
    ('a' ≤ c && c ≤ 'z') && cs.all (fun d => d.isAlphanum || d = '_') && cs.length ≤ 126

/-- C9 counterexample: the namespace segment "_a" does not match the claim's
lowercase-start pattern, yet the code rewrites the URL (the source pattern
`[a-z_]` also accepts an underscore as the first character), so the claim's
"left byte-for-byte unchanged" clause fails on this input. -/
theorem replace_qpy_urls_underscore_cex :
    claimSegOk ['_', 'a'] = false
    ∧ replaceQpyUrls "qpy://static/_a/b/" ≠ "qpy://static/_a/b/"
    ∧ replaceQpyUrls "qpy://static/_a/b/" = "/worker/_a/b/file/static/" := by
  refine ⟨by decide, by decide, by decide⟩

/-- C9 (amended): the pre-parse rewrite maps every occurrence of
qpy://static/ns/sn/ (resp. qpy://static-private/ns/sn/) whose two segments
each start with a lowercase letter or an underscore and continue with at most
126 lowercase-alphanumeric/underscore characters to
/worker/ns/sn/file/static/ (resp. .../file/static-private/), scanning left to
right and continuing after each replaced region; a string in which no position
matches the pattern is left byte-for-byte unchanged. -/
theorem replace_qpy_urls_amended (ns sn rest : List Char)
    (hns : segOk ns = true) (hsn : segOk sn = true) :
    replaceQpyUrlsList (qpyUrlStart ++ (staticSlash ++ (ns ++ ('/' :: (sn ++ ('/' :: rest))))))
      = replacementFor staticChars ns sn ++ replaceQpyUrlsList rest
    ∧ replaceQpyUrlsList
        (qpyUrlStart ++ (staticPrivateSlash ++ (ns ++ ('/' :: (sn ++ ('/' :: rest))))))
      = replacementFor staticPrivateChars ns sn ++ replaceQpyUrlsList rest
    ∧ (∀ l : List Char, (∀ i, tryMatchUrl (List.drop i l) = none) →
        replaceQpyUrlsList l = l)
    ∧ (∀ l : List Char, replaceQpyUrls (String.mk l) = String.mk (replaceQpyUrlsList l)) := by
  refine ⟨?_, ?_, ?_, fun l => rfl⟩
  · have hm := tryMatchUrl_static ns sn rest hns hsn
    have : qpyUrlStart ++ (staticSlash ++ (ns ++ ('/' :: (sn ++ ('/' :: rest)))))
        = 'q' :: ('p' :: ('y' :: (':' :: ('/' :: ('/' ::
            (staticSlash ++ (ns ++ ('/' :: (sn ++ ('/' :: rest))))))))))  := by
      simp [qpyUrlStart]
    rw [this] at hm ⊢
    exact replaceQpyUrlsList_match _ _ _ _ _ _ hm
  · have hm := tryMatchUrl_staticPrivate ns sn rest hns hsn
    have : qpyUrlStart ++ (staticPrivateSlash ++ (ns ++ ('/' :: (sn ++ ('/' :: rest)))))
        = 'q' :: ('p' :: ('y' :: (':' :: ('/' :: ('/' ::
            (staticPrivateSlash ++ (ns ++ ('/' :: (sn ++ ('/' :: rest))))))))))  := by
      simp [qpyUrlStart]
    rw [this] at hm ⊢
    exact replaceQpyUrlsList_match _ _ _ _ _ _ hm
  · intro l hl
    induction l with
    | nil => simp [replaceQpyUrlsList, replaceQpyUrlsAux]
    | cons c cs ih =>
      have h0 := hl 0
      simp only [List.drop_zero] at h0
      rw [replaceQpyUrlsList_nomatch c cs h0]
      rw [ih]
      intro i
      have := hl (i + 1)
      simpa using this

/-- Witness for C9 with ns = "a", sn = "b", rest = "x". -/
theorem replace_qpy_urls_amended_witness :
    (segOk ['a'] = true ∧ segOk ['b'] = true)
    ∧ (replaceQpyUrlsList (qpyUrlStart
          ++ (staticSlash ++ (['a'] ++ ('/' :: (['b'] ++ ('/' :: ['x']))))))
        = replacementFor staticChars ['a'] ['b'] ++ replaceQpyUrlsList ['x']
      ∧ replaceQpyUrlsList (qpyUrlStart
          ++ (staticPrivateSlash ++ (['a'] ++ ('/' :: (['b'] ++ ('/' :: ['x']))))))
        = replacementFor staticPrivateChars ['a'] ['b'] ++ replaceQpyUrlsList ['x']
      ∧ (∀ l : List Char, (∀ i, tryMatchUrl (List.drop i l) = none) →
          replaceQpyUrlsList l = l)
      ∧ (∀ l : List Char, replaceQpyUrls (String.mk l) = String.mk (replaceQpyUrlsList l))) :=
  ⟨⟨by decide, by decide⟩, replace_qpy_urls_amended ['a'] ['b'] ['x'] (by decide) (by decide)⟩

/- ============================================================
   Document model (the lxml element tree)
   ============================================================ -/

/-- The namespaces relevant to the renderer: the XHTML content namespace, the
qpy control namespace, no namespace (elements the renderer creates, and
attributes without a prefix), and any other namespace. -/
inductive NS where
  | plain
  | xhtml
  | qpy
  | other
deriving DecidableEq, Repr

/-- An attribute: its namespace, local name and value. -/
structure NAttr where
  ns : NS
  name : String
  value : String
deriving DecidableEq, Repr

/-- A node of the parsed document, mirroring lxml: an element carries the text
before its first child (`text`) and every node carries the text following it
(`tail`); `line` is the parser-reported source line (None for nodes created by
the renderer). -/
inductive Node where
  | element (ns : NS) (tag : String) (attrs : List NAttr) (text : Option String)
      (children : List Node) (tail : Option String) (line : Option Nat)
  | comment (text : String) (tail : Option String) (line : Option Nat)
  | procInst (target : String) (text : Option String) (tail : Option String) (line : Option Nat)
deriving Repr

def Node.tail : Node → Option String
  | .element _ _ _ _ _ t _ => t
  | .comment _ t _ => t
  | .procInst _ _ t _ => t

def Node.withTail : Node → Option String → Node
  | .element ns tag attrs text cs _ line, t => .element ns tag attrs text cs t line
  | .comment txt _ line, t => .comment txt t line
  | .procInst tgt txt _ line, t => .procInst tgt txt t line

def Node.lineNo : Node → Option Nat
  | .element _ _ _ _ _ _ l => l
  | .comment _ _ l => l
  | .procInst _ _ _ l => l

/-- First matching attribute value (attribute names are unique in lxml). -/
def getAttr (attrs : List NAttr) (ns : NS) (name : String) : Option String :=
  match attrs.find? (fun a => a.ns = ns && a.name = name) with
  | some a => some a.value
  | none => none

/-- lxml `element.set`: update the existing attribute in place or append. -/
def setAttr : List NAttr → NS → String → String → List NAttr
  | [], ns, n, v => [⟨ns, n, v⟩]
  | a :: rest, ns, n, v =>
    if a.ns = ns && a.name = n then ⟨ns, n, v⟩ :: rest else a :: setAttr rest ns n v

/-- lxml `element.attrib.pop` / `del element.attrib[...]`. -/
def removeAttr (attrs : List NAttr) (ns : NS) (name : String) : List NAttr :=
  attrs.filter (fun a => !(a.ns = ns && a.name = name))

/-- Accumulator for rebuilding a sibling list left to right: `text` is the
parent's lxml `text` slot (the text before the first child built so far) and
`rev` the children built so far, in reverse. -/
structure SibAcc where
  text : Option String
  rev : List Node

def SibAcc.push (acc : SibAcc) (n : Node) : SibAcc :=
  { acc with rev := n :: acc.rev }

/-- `_add_text_before` at the current insertion point: append to the previous
sibling's `tail`, or to the parent's `text` when there is no previous sibling
(an absent slot is treated as the empty string, as in the source). -/
def SibAcc.addText (acc : SibAcc) (t : String) : SibAcc :=
  match acc.rev with
  | [] => { acc with text := some ((acc.text.getD "") ++ t) }
  | n :: rest => { acc with rev := (n.withTail (some ((n.tail.getD "") ++ t))) :: rest }

def lookupStr (m : List (String × String)) (k : String) : Option String :=
  match m.find? (fun p => p.1 = k) with
  | some p => some p.2
  | none => none

/-- Python `\s` for the ASCII range (the inputs relevant here are ASCII). -/
def isPyWs (c : Char) : Bool :=
  c = ' ' || c = '\t' || c = '\n' || c = '\r' || c = '\x0b' || c = '\x0c'

/-- Python str.strip(). -/
def pyStrip (s : String) : String :=
  String.mk (((s.data.dropWhile isPyWs).reverse.dropWhile isPyWs).reverse)

/-- Python str.split(maxsplit=1). -/
def pySplitMax1 (s : String) : List String :=
  match s.data.dropWhile isPyWs with
  | [] => []
  | l =>
    let tok := l.takeWhile (fun c => !isPyWs c)
    match (l.dropWhile (fun c => !isPyWs c)).dropWhile isPyWs with
    | [] => [String.mk tok]
    | rest => [String.mk tok, String.mk rest]

mutual
/-- Inside a token: accumulate characters until whitespace or the end. -/
def pySplitTok : List Char → List Char → List String
  | [], acc => [String.mk acc.reverse]
  | c :: rest, acc =>
    if isPyWs c then String.mk acc.reverse :: pySplitSkip rest
    else pySplitTok rest (c :: acc)

/-- Between tokens: skip whitespace (no empty tokens are produced). -/
def pySplitSkip : List Char → List String
  | [] => []
  | c :: rest => if isPyWs c then pySplitSkip rest else pySplitTok rest [c]
end

/-- Python str.split() with no arguments: tokens between whitespace runs,
no empty tokens. -/
def pySplitAll (l : List Char) : List String := pySplitSkip l

/- ============================================================
   Display options and render context
   ============================================================ -/

/-- The fixed role enumeration `QuestionDisplayRole`. -/
inductive QuestionDisplayRole where
  | DEVELOPER
  | PROCTOR
  | SCORER
  | TEACHER
deriving DecidableEq, Repr

def QuestionDisplayRole.toStr : QuestionDisplayRole → String
  | .DEVELOPER => "DEVELOPER"
  | .PROCTOR => "PROCTOR"
  | .SCORER => "SCORER"
  | .TEACHER => "TEACHER"

/-- Iteration order of the StrEnum. -/
def allRoles : List QuestionDisplayRole :=
  [.DEVELOPER, .PROCTOR, .SCORER, .TEACHER]

/-- `QuestionDisplayOptions` (roles as a list standing for the set). -/
structure QuestionDisplayOptions where
  general_feedback : Bool := true
  feedback : Bool := true
  right_answer : Bool := true
  roles : List QuestionDisplayRole := allRoles
  readonly : Bool := false
deriving DecidableEq, Repr

/-- The parsed result of `lxml.html.fragment_fromstring(raw, create_parent=True)`:
the wrapper's leading text and child nodes. -/
structure Fragment where
  text : Option String
  children : List Node

/-- Everything a render needs besides the document: constructor inputs plus
the external library boundaries (HTML fragment parsing, the sanitizer, the
seeded shuffle), abstracted as functions. -/
structure RenderContext where
  placeholders : List (String × String)
  options : QuestionDisplayOptions
  attempt : Option (List (String × String))
  shuffle : List Node → List Node
  parseFragment : String → Fragment
  cleanFragment : Fragment → Fragment
  formatFloatValue : String → Option Nat → Bool → String → String

/- ============================================================
   Pass 1: _resolve_placeholders
   ============================================================ -/

/-- `_validate_placeholder`: missing or empty PI text emits a
PlaceholderReferenceError; otherwise the text is stripped and split into key
and cleaning option (default "clean", lowercased); a bad option emits
InvalidCleanOptionError and an unknown key a PlaceholderReferenceError (both
may fire); any error yields no result.  Whitespace-only text reaches
`parts[0]` on an empty list, an IndexError that escapes render(): modelled as
`Except.error`. -/
def validatePlaceholder (placeholders : List (String × String)) (line : Option Nat)
    (text : Option String) : Except Unit (Option (String × String) × List RenderError) :=
  if (text.getD "") = "" then
    .ok (none, [⟨.placeholderReferenceErr, line⟩])
  else
    match pySplitMax1 (pyStrip (text.getD "")) with
    | [] => .error ()
    | parts =>
      let key := parts.headD ""
      let cleanOption := if parts.length = 2 then strToLower (parts.getD 1 "") else "clean"
      let optErrs : List RenderError :=
        if cleanOption = "plain" ∨ cleanOption = "clean" ∨ cleanOption = "noclean" then []
        else [⟨.invalidCleanOptionErr, line⟩]
      let keyErrs : List RenderError :=
        if (lookupStr placeholders key).isSome then []
        else [⟨.placeholderReferenceErr, line⟩]
      if optErrs = [] ∧ keyErrs = [] then .ok (some (key, cleanOption), [])
      else .ok (none, optErrs ++ keyErrs)

mutual
/-- `_resolve_placeholders` on one node: placeholder PIs occur among the
children of elements; the pass rewrites every sibling list in document
order. -/
def resolvePlaceholdersNode (ctx : RenderContext) :
    Node → Except Unit (Node × List RenderError)
  | .element ns tag attrs text cs tail line => do
    let (acc, errs) ← resolvePlaceholdersSibs ctx ⟨text, []⟩ cs
    .ok (.element ns tag attrs acc.text acc.rev.reverse tail line, errs)
  | n => .ok (n, [])

/-- Processes a sibling list left to right.  A failed validation removes the
PI with `_remove_element` (its tail is dropped); a successful one splices the
placeholder content — `plain` inserts the raw value as text, `clean`/`noclean`
parse the value as an HTML fragment (`clean` sanitizes it first) and splice
its leading text and child nodes — and then `_remove_preserving_tail` keeps
the PI's tail in place.  Fragment children are spliced as-is: the PI list was
materialized before any splice, so spliced content is never reprocessed. -/
def resolvePlaceholdersSibs (ctx : RenderContext) (acc : SibAcc) :
    List Node → Except Unit (SibAcc × List RenderError)
  | [] => .ok (acc, [])
  | n :: rest =>
    match n with
    | .procInst "p" text tail line => do
      let (data, verrs) ← validatePlaceholder ctx.placeholders line text
      match data with
      | none => do
        -- _remove_element: the PI and its tail are dropped
        let (acc2, errs) ← resolvePlaceholdersSibs ctx acc rest
        .ok (acc2, verrs ++ errs)
      | some (key, cleanOption) => do
        let rawValue := (lookupStr ctx.placeholders key).getD ""
        let acc1 :=
          if cleanOption = "plain" then acc.addText rawValue
          else
            let frag0 := ctx.parseFragment rawValue
            let frag := if cleanOption ≠ "noclean" then ctx.cleanFragment frag0 else frag0
            let accT := match frag.text with
              | some t => acc.addText t
              | none => acc
            frag.children.foldl SibAcc.push accT
        let acc2 := match tail with
          | some t => acc1.addText t
          | none => acc1
        let (acc3, errs) ← resolvePlaceholdersSibs ctx acc2 rest
        .ok (acc3, verrs ++ errs)
    | _ => do
      let (n2, nerrs) ← resolvePlaceholdersNode ctx n
      let (acc2, errs) ← resolvePlaceholdersSibs ctx (acc.push n2) rest
      .ok (acc2, nerrs ++ errs)
end

/- ============================================================
   Pass 2: _hide_unwanted_feedback
   ============================================================ -/

/-- The keep condition of `_hide_unwanted_feedback`. -/
def feedbackKeep (opts : QuestionDisplayOptions) (v : String) : Bool :=
  (v = "general" && opts.general_feedback) || (v = "specific" && opts.feedback)

/-- The expected-value check: anything outside general/specific emits an
InvalidAttributeValueError. -/
def feedbackErrs (v : String) (line : Option Nat) : List RenderError :=
  if v = "general" ∨ v = "specific" then [] else [⟨.invalidAttributeValueErr, line⟩]

mutual
/-- Diagnostics from elements carrying qpy:feedback inside a removed subtree:
the element list was materialized before any removal, so the expected-value
check still runs (and still emits) for them. -/
def collectFeedbackErrsNode : Node → List RenderError
  | .element _ _ attrs _ cs _ line =>
    (match getAttr attrs NS.qpy "feedback" with
     | some v => feedbackErrs v line
     | none => []) ++ collectFeedbackErrsList cs
  | _ => []

def collectFeedbackErrsList : List Node → List RenderError
  | [] => []
  | n :: rest => collectFeedbackErrsNode n ++ collectFeedbackErrsList rest
end

mutual
/-- `_hide_unwanted_feedback` below the root: an element carrying qpy:feedback
is kept only when its feedback kind is enabled; removal drops the subtree and
the tail; the expected-value check runs either way. -/
def hideFeedbackNode (opts : QuestionDisplayOptions) : Node → Option Node × List RenderError
  | .element ns tag attrs text cs tail line =>
    match getAttr attrs NS.qpy "feedback" with
    | some v =>
      if feedbackKeep opts v then
        let (cs2, cerrs) := hideFeedbackList opts cs
        (some (.element ns tag attrs text cs2 tail line), feedbackErrs v line ++ cerrs)
      else
        (none, feedbackErrs v line ++ collectFeedbackErrsList cs)
    | none =>
      let (cs2, cerrs) := hideFeedbackList opts cs
      (some (.element ns tag attrs text cs2 tail line), cerrs)
  | n => (some n, [])

def hideFeedbackList (opts : QuestionDisplayOptions) : List Node → List Node × List RenderError
  | [] => ([], [])
  | n :: rest =>
    let (n2, nerrs) := hideFeedbackNode opts n
    let (rest2, rerrs) := hideFeedbackList opts rest
    (match n2 with
     | some m => m :: rest2
     | none => rest2, nerrs ++ rerrs)
end

/-- `_hide_unwanted_feedback` at document level: removing the root calls
`_remove_element` on a parentless node, which raises (modelled as
`Except.error`); note the removal happens before the expected-value check, so
no diagnostic survives for that case. -/
def hideFeedbackDoc (opts : QuestionDisplayOptions) : Node → Except Unit (Node × List RenderError)
  | .element ns tag attrs text cs tail line =>
    match getAttr attrs NS.qpy "feedback" with
    | some v =>
      if feedbackKeep opts v then
        let (cs2, cerrs) := hideFeedbackList opts cs
        .ok (.element ns tag attrs text cs2 tail line, feedbackErrs v line ++ cerrs)
      else .error ()
    | none =>
      let (cs2, cerrs) := hideFeedbackList opts cs
      .ok (.element ns tag attrs text cs2 tail line, cerrs)
  | n => .ok (n, [])

/- ============================================================
   Pass 3: _hide_if_role
   ============================================================ -/

/-- A separator of the role list: `re.split(r"[\s|]+", attr)`. -/
def isRoleSep (c : Char) : Bool := isPyWs c || c = '|'

mutual
/-- Inside a token of the role list. -/
def reSplitTok : List Char → List Char → List String
  | [], acc => [String.mk acc.reverse]
  | c :: rest, acc =>
    if isRoleSep c then String.mk acc.reverse :: reSplitRun rest
    else reSplitTok rest (c :: acc)

/-- Inside a separator run (an empty token results at the very end, matching
re.split's empty string after a trailing separator). -/
def reSplitRun : List Char → List String
  | [] => [""]
  | c :: rest => if isRoleSep c then reSplitRun rest else reSplitTok rest [c]
end

/-- `re.split(r"[\s|]+", s)`: tokens between separator runs, with an empty
token produced by a leading or trailing separator. -/
def reSplitRoles (s : String) : List String :=
  match s.data with
  | [] => [""]
  | c :: rest => if isRoleSep c then "" :: reSplitRun rest else reSplitTok rest [c]

def roleStrings : List String := allRoles.map QuestionDisplayRole.toStr

/-- The per-element decision of `_hide_if_role`: an empty attribute value is
falsy, so the walrus guard skips the element entirely (it is kept); otherwise
the value is split and uppercased; any token outside the role enumeration
emits InvalidAttributeValueError and removes the element unconditionally;
otherwise the element is removed exactly when no enumeration role is both
listed and held by the viewer. -/
inductive IfRoleDecision where
  | keep
  | removeQuiet
  | removeError
deriving DecidableEq, Repr

def ifRoleDecision (opts : QuestionDisplayOptions) (v : String) : IfRoleDecision :=
  if v = "" then .keep
  else
    let allowed := (reSplitRoles v).map strToUpper
    if (allowed.filter (fun t => !roleStrings.contains t)) ≠ [] then .removeError
    else if allRoles.any (fun r => allowed.contains r.toStr && opts.roles.contains r) then .keep
    else .removeQuiet

mutual
/-- Diagnostics from elements carrying qpy:if-role inside a removed subtree
(the list was materialized before removal, so their checks still run). -/
def collectIfRoleErrsNode (opts : QuestionDisplayOptions) : Node → List RenderError
  | .element _ _ attrs _ cs _ line =>
    (match getAttr attrs NS.qpy "if-role" with
     | some v =>
       if ifRoleDecision opts v = .removeError then [⟨.invalidAttributeValueErr, line⟩]
       else []
     | none => []) ++ collectIfRoleErrsList opts cs
  | _ => []

def collectIfRoleErrsList (opts : QuestionDisplayOptions) : List Node → List RenderError
  | [] => []
  | n :: rest => collectIfRoleErrsNode opts n ++ collectIfRoleErrsList opts rest
end

mutual
/-- `_hide_if_role` below the root. -/
def hideIfRoleNode (opts : QuestionDisplayOptions) : Node → Option Node × List RenderError
  | .element ns tag attrs text cs tail line =>
    match getAttr attrs NS.qpy "if-role" with
    | some v =>
      match ifRoleDecision opts v with
      | .keep =>
        let (cs2, cerrs) := hideIfRoleList opts cs
        (some (.element ns tag attrs text cs2 tail line), cerrs)
      | .removeQuiet => (none, collectIfRoleErrsList opts cs)
      | .removeError =>
        (none, ⟨.invalidAttributeValueErr, line⟩ :: collectIfRoleErrsList opts cs)
    | none =>
      let (cs2, cerrs) := hideIfRoleList opts cs
      (some (.element ns tag attrs text cs2 tail line), cerrs)
  | n => (some n, [])

def hideIfRoleList (opts : QuestionDisplayOptions) : List Node → List Node × List RenderError
  | [] => ([], [])
  | n :: rest =>
    let (n2, nerrs) := hideIfRoleNode opts n
    let (rest2, rerrs) := hideIfRoleList opts rest
    (match n2 with
     | some m => m :: rest2
     | none => rest2, nerrs ++ rerrs)
end

/-- `_hide_if_role` at document level.  An invalid role list on the root
inserts the diagnostic and then `_remove_element` raises (modelled as
`Except.error`); the quiet-removal branch is guarded by `parent is not None`,
so a root that matches no role is kept. -/
def hideIfRoleDoc (opts : QuestionDisplayOptions) : Node → Except Unit (Node × List RenderError)
  | .element ns tag attrs text cs tail line =>
    match getAttr attrs NS.qpy "if-role" with
    | some v =>
      match ifRoleDecision opts v with
      | .removeError => .error ()
      | _ =>
        let (cs2, cerrs) := hideIfRoleList opts cs
        .ok (.element ns tag attrs text cs2 tail line, cerrs)
    | none =>
      let (cs2, cerrs) := hideIfRoleList opts cs
      .ok (.element ns tag attrs text cs2 tail line, cerrs)
  | n => .ok (n, [])

/- ============================================================
   Pass 4: _set_input_values_and_readonly
   ============================================================ -/

/-- Python dict truthiness of the attempt mapping: `not self._attempt` is true
for None and for an empty dict. -/
def attemptTruthy (attempt : Option (List (String × String))) : Bool :=
  match attempt with
  | none => false
  | some m => !m.isEmpty

/-- Marks the matching option child of a select as selected (first match only,
like the source's `break`).  The source's XPath resolves option elements
document-wide by select name; since this select is the element with that name,
its own option children are modelled. -/
def selectOptionChildren (value : String) : List Node → List Node
  | [] => []
  | n :: rest =>
    match n with
    | .element ns "option" attrs text cs tail line =>
      if ns = NS.xhtml then
        let optValue := match getAttr attrs NS.plain "value" with
          | some v => some v
          | none => text
        if optValue = some value then
          .element ns "option" (setAttr attrs NS.plain "selected" "selected") text cs tail line
            :: rest
        else n :: selectOptionChildren value rest
      else n :: selectOptionChildren value rest
    | _ => n :: selectOptionChildren value rest

/-- `_set_element_value`: dispatch on the input kind (the `type` attribute for
inputs, defaulting to "text"; the local name otherwise). -/
def setElementValue (value : String) (n : Node) : Node :=
  match n with
  | .element ns tag attrs text cs tail line =>
    let typeAttr := if tag = "input" then (getAttr attrs NS.plain "type").getD "text" else tag
    if typeAttr = "checkbox" ∨ typeAttr = "radio" then
      if getAttr attrs NS.plain "value" = some value then
        .element ns tag (setAttr attrs NS.plain "checked" "checked") text cs tail line
      else n
    else if typeAttr = "select" then
      .element ns tag attrs text (selectOptionChildren value cs) tail line
    else if typeAttr = "textarea" then
      .element ns tag attrs (some value) cs tail line
    else if typeAttr = "button" ∨ typeAttr = "submit" ∨ typeAttr = "hidden" then n
    else .element ns tag (setAttr attrs NS.plain "value" value) text cs tail line
  | _ => n

def isInputLikeTag (tag : String) : Bool :=
  tag = "button" || tag = "input" || tag = "select" || tag = "textarea"

mutual
/-- `_set_input_values_and_readonly`: every XHTML button/input/select/textarea
is disabled under readonly; an element with a non-empty name present in the
prior-response mapping is repopulated via `_set_element_value`. -/
def setInputValuesNode (ctx : RenderContext) : Node → Node
  | .element ns tag attrs text cs tail line =>
    let cs2 := setInputValuesList ctx cs
    if ns = NS.xhtml && isInputLikeTag tag then
      let attrs1 := if ctx.options.readonly then setAttr attrs NS.plain "disabled" "disabled"
        else attrs
      let n1 : Node := .element ns tag attrs1 text cs2 tail line
      let name := (getAttr attrs NS.plain "name").getD ""
      if name = "" ∨ !attemptTruthy ctx.attempt then n1
      else
        match lookupStr (ctx.attempt.getD []) name with
        | some v => setElementValue v n1
        | none => n1
    else .element ns tag attrs text cs2 tail line
  | n => n

def setInputValuesList (ctx : RenderContext) : List Node → List Node
  | [] => []
  | n :: rest => setInputValuesNode ctx n :: setInputValuesList ctx rest
end

/- ============================================================
   Pass 5: _soften_validation
   ============================================================ -/

/-- One `handle_attribute` call: for an element whose tag is in `tags` and
which carries `attrName`, pop the native attribute; when its value is
non-empty re-express it as `dataName` (a value equal to the attribute name
becomes "true") and mirror it onto the aria attribute when given. -/
def softenOne (tags : List String) (attrName dataName : String) (aria : Option String)
    (tag : String) (attrs : List NAttr) : List NAttr :=
  if tags.contains tag && (getAttr attrs NS.plain attrName).isSome then
    let v := (getAttr attrs NS.plain attrName).getD ""
    let attrs1 := removeAttr attrs NS.plain attrName
    if v ≠ "" then
      let v2 := if v = attrName then "true" else v
      let attrs2 := setAttr attrs1 NS.plain dataName v2
      match aria with
      | some a => setAttr attrs2 NS.plain a v2
      | none => attrs2
    else attrs1
  else attrs

/-- The six `handle_attribute` calls of `_soften_validation`, in source
order. -/
def softenElementAttrs (tag : String) (attrs : List NAttr) : List NAttr :=
  let a1 := softenOne ["input"] "pattern" "data-qpy_pattern" none tag attrs
  let a2 := softenOne ["input", "select", "textarea"] "required" "data-qpy_required"
    (some "aria-required") tag a1
  let a3 := softenOne ["input", "textarea"] "minlength" "data-qpy_minlength" none tag a2
  let a4 := softenOne ["input", "textarea"] "maxlength" "data-qpy_maxlength" none tag a3
  let a5 := softenOne ["input"] "min" "data-qpy_min" (some "aria-valuemin") tag a4
  softenOne ["input"] "max" "data-qpy_max" (some "aria-valuemax") tag a5

mutual
def softenValidationNode : Node → Node
  | .element ns tag attrs text cs tail line =>
    let attrs2 := if ns = NS.xhtml then softenElementAttrs tag attrs else attrs
    .element ns tag attrs2 text (softenValidationList cs) tail line
  | n => n

def softenValidationList : List Node → List Node
  | [] => []
  | n :: rest => softenValidationNode n :: softenValidationList rest
end

/- ============================================================
   Pass 6: _defuse_buttons
   ============================================================ -/

mutual
/-- `_defuse_buttons`: any XHTML input/button with type submit or reset gets
its type forced to button. -/
def defuseButtonsNode : Node → Node
  | .element ns tag attrs text cs tail line =>
    let attrs2 :=
      if ns = NS.xhtml && (tag = "input" || tag = "button")
          && (getAttr attrs NS.plain "type" = some "submit"
              || getAttr attrs NS.plain "type" = some "reset") then
        setAttr attrs NS.plain "type" "button"
      else attrs
    .element ns tag attrs2 text (defuseButtonsList cs) tail line
  | n => n

def defuseButtonsList : List Node → List Node
  | [] => []
  | n :: rest => defuseButtonsNode n :: defuseButtonsList rest
end

/- ============================================================
   Pass 7: _shuffle_contents
   ============================================================ -/

mutual
/-- The InvalidAttributeValueError of every qpy:shuffled-index element with an
unrecognized format in a subtree, in document order: the source materializes
the `.//qpy:shuffled-index` list before any replacement, so a marker nested
inside a replaced or removed marker is still processed — its removal happens
invisibly inside the detached subtree, but its diagnostic is inserted into the
shared collection. -/
def collectMarkerErrsNode (idx : Nat) : Node → List RenderError
  | .element ns tag attrs _ cs _ line =>
    (if ns = NS.qpy ∧ tag = "shuffled-index"
        ∧ shuffledIndexText ((getAttr attrs NS.plain "format").getD "123") idx = none
     then [⟨.invalidAttributeValueErr, line⟩] else []) ++ collectMarkerErrsList idx cs
  | _ => []

def collectMarkerErrsList (idx : Nat) : List Node → List RenderError
  | [] => []
  | n :: rest => collectMarkerErrsNode idx n ++ collectMarkerErrsList idx rest
end

mutual
/-- `_replace_shuffled_indices` below a shuffled child: rewrite every
qpy:shuffled-index among the strict descendants. -/
def replaceMarkersNode (idx : Nat) : Node → Node × List RenderError
  | .element ns tag attrs text cs tail line =>
    let (acc, errs) := replaceMarkersSibs idx ⟨text, []⟩ cs
    (.element ns tag attrs acc.text acc.rev.reverse tail line, errs)
  | n => (n, [])

/-- A marker with a recognized format is replaced by a plain span holding the
rendered index (keeping a truthy tail); an unrecognized format emits
InvalidAttributeValueError and removes the marker preserving its tail.  Either
way the marker's subtree leaves the output, but markers nested in it were in
the materialized `.//qpy:shuffled-index` list and still contribute their
InvalidAttributeValueErrors. -/
def replaceMarkersSibs (idx : Nat) (acc : SibAcc) : List Node → SibAcc × List RenderError
  | [] => (acc, [])
  | n :: rest =>
    match n with
    | .element NS.qpy "shuffled-index" attrs _ cs tail line =>
      let fmt := (getAttr attrs NS.plain "format").getD "123"
      match shuffledIndexText fmt idx with
      | some s =>
        let spanTail := if (tail.getD "") = "" then none else tail
        let span : Node := .element NS.plain "span" [] (some s) [] spanTail none
        let (acc2, errs) := replaceMarkersSibs idx (acc.push span) rest
        (acc2, collectMarkerErrsList idx cs ++ errs)
      | none =>
        let acc1 := match tail with
          | some t => acc.addText t
          | none => acc
        let (acc2, errs) := replaceMarkersSibs idx acc1 rest
        (acc2, ⟨.invalidAttributeValueErr, line⟩ :: (collectMarkerErrsList idx cs ++ errs))
    | .element ns tag attrs text cs tail line =>
      let (n2, nerrs) := replaceMarkersNode idx (.element ns tag attrs text cs tail line)
      let (acc2, errs) := replaceMarkersSibs idx (acc.push n2) rest
      (acc2, nerrs ++ errs)
    | other => replaceMarkersSibs idx (acc.push other) rest
end

/-- Numbers the shuffled children 1-based and rewrites their descendant
markers, in order. -/
def markShuffledChildren (idx : Nat) : List Node → List Node × List RenderError
  | [] => ([], [])
  | n :: rest =>
    let (n2, nerrs) := replaceMarkersNode idx n
    let (rest2, rerrs) := markShuffledChildren (idx + 1) rest
    (n2 :: rest2, nerrs ++ rerrs)

/-- `_shuffle_contents`, fuel-indexed for structural recursion (the fuel is
the tree depth; `random.shuffle` permutes the children in place, so depth
never grows and the fuel never runs out on the real shuffler). -/
def shuffleContentsNode (ctx : RenderContext) : Nat → Node → Node × List RenderError
  | 0, n => (n, [])
  | fuel + 1, .element ns tag attrs text cs tail line =>
    match getAttr attrs NS.qpy "shuffle-contents" with
    | some _ =>
      let attrs2 := removeAttr attrs NS.qpy "shuffle-contents"
      let shuffled := ctx.shuffle cs
      let (cs2, merrs) := markShuffledChildren 1 shuffled
      let (cs3, serrs) := cs2.foldr
        (fun c acc =>
          let (c2, cerrs) := shuffleContentsNode ctx fuel c
          (c2 :: acc.1, cerrs ++ acc.2))
        (([], []) : List Node × List RenderError)
      (.element ns tag attrs2 text cs3 tail line, merrs ++ serrs)
    | none =>
      let (cs2, errs) := cs.foldr
        (fun c acc =>
          let (c2, cerrs) := shuffleContentsNode ctx fuel c
          (c2 :: acc.1, cerrs ++ acc.2))
        (([], []) : List Node × List RenderError)
      (.element ns tag attrs text cs2 tail line, errs)
  | _ + 1, n => (n, [])

mutual
def nodeDepth : Node → Nat
  | .element _ _ _ _ cs _ _ => 1 + nodeListDepth cs
  | _ => 1

def nodeListDepth : List Node → Nat
  | [] => 0
  | n :: rest => max (nodeDepth n) (nodeListDepth rest)
end

def shuffleContentsDoc (ctx : RenderContext) (d : Node) : Node × List RenderError :=
  shuffleContentsNode ctx (nodeDepth d) d

/- ============================================================
   Pass 8: _add_styles
   ============================================================ -/

/-- `_add_class_names`: split the existing class attribute on whitespace and
append each class name not already present. -/
def addClassNames (attrs : List NAttr) (names : List String) : List NAttr :=
  let existing := pySplitAll ((getAttr attrs NS.plain "class").getD "").data
  let merged := names.foldl (fun ex n => if ex.contains n then ex else ex ++ [n]) existing
  setAttr attrs NS.plain "class" (String.intercalate " " merged)

/-- The three style groups of `_add_styles`.  The first group's XPath compares
the type attribute with `!=`, which is false when the attribute is absent, so
an input without a type attribute matches no group. -/
def addStylesAttrs (tag : String) (attrs : List NAttr) : List NAttr :=
  if tag = "input" then
    match getAttr attrs NS.plain "type" with
    | some tv =>
      if tv = "button" ∨ tv = "submit" ∨ tv = "reset" then
        addClassNames attrs ["btn", "btn-primary", "qpy-input"]
      else if tv = "checkbox" ∨ tv = "radio" then
        addClassNames attrs ["qpy-input"]
      else
        addClassNames attrs ["form-control", "qpy-input"]
    | none => attrs
  else if tag = "select" ∨ tag = "textarea" then
    addClassNames attrs ["form-control", "qpy-input"]
  else if tag = "button" then
    addClassNames attrs ["btn", "btn-primary", "qpy-input"]
  else attrs

mutual
def addStylesNode : Node → Node
  | .element ns tag attrs text cs tail line =>
    let attrs2 := if ns = NS.xhtml then addStylesAttrs tag attrs else attrs
    .element ns tag attrs2 text (addStylesList cs) tail line
  | n => n

def addStylesList : List Node → List Node
  | [] => []
  | n :: rest => addStylesNode n :: addStylesList rest
end

/- ============================================================
   Pass 9: _format_floats
   ============================================================ -/

def isDigitCh (c : Char) : Bool := '0' ≤ c && c ≤ '9'

def splitOnFirst (x : Char) : List Char → Option (List Char × List Char)
  | [] => none
  | c :: rest =>
    if c = x then some ([], rest)
    else
      match splitOnFirst x rest with
      | some (a, b) => some (c :: a, b)
      | none => none

/-- The strict numeric grammar
`^\s*((\d+\.?\d*)|(\d*\.\d+)|(\d+e\d+))\s*$` of
`_validate_format_float_element`: after trimming outer whitespace, either
digits around a single dot (at least one digit overall), or digits before and
after a single `e`, or plain digits. -/
def matchesFloatGrammar (s : String) : Bool :=
  let core := ((s.data.dropWhile isPyWs).reverse.dropWhile isPyWs).reverse
  match splitOnFirst '.' core with
  | some (a, b) => a.all isDigitCh && b.all isDigitCh && (!a.isEmpty || !b.isEmpty)
  | none =>
    match splitOnFirst 'e' core with
    | some (a, b) => !a.isEmpty && a.all isDigitCh && !b.isEmpty && b.all isDigitCh
    | none => !core.isEmpty && core.all isDigitCh

/-- Python str.isnumeric restricted to the ASCII digits relevant here. -/
def pyIsNumeric (l : List Char) : Bool := !l.isEmpty && l.all isDigitCh

def natOfDigits (l : List Char) : Nat :=
  l.foldl (fun n c => n * 10 + (c.toNat - 48)) 0

/-- `_validate_format_float_element`: absent text returns silently (the
source's TODO — no diagnostic); non-matching text emits ConversionError; an
empty or negative precision emits InvalidAttributeValueError, a non-numeric
one ConversionError; a thousands-separator outside yes/no emits
InvalidAttributeValueError.  Any error drops the result. -/
def validateFormatFloat (text : Option String) (precAttr thouAttr : Option String)
    (line : Option Nat) : Option (String × Option Nat × String) × List RenderError :=
  match text with
  | none => (none, [])
  | some t =>
    let textErrs : List RenderError :=
      if matchesFloatGrammar t then [] else [⟨.conversionErr, line⟩]
    let precResult : Option Nat × List RenderError :=
      match precAttr with
      | none => (none, [])
      | some p =>
        if p = "" ∨ (p.data.headD ' ' = '-' ∧ pyIsNumeric p.data.tail) then
          (none, [⟨.invalidAttributeValueErr, line⟩])
        else if pyIsNumeric p.data then (some (natOfDigits p.data), [])
        else (none, [⟨.conversionErr, line⟩])
    let thou := thouAttr.getD "no"
    let thouErrs : List RenderError :=
      if thou = "yes" ∨ thou = "no" then [] else [⟨.invalidAttributeValueErr, line⟩]
    let errs := textErrs ++ precResult.2 ++ thouErrs
    if errs = [] then (some (t, precResult.1, thou), []) else (none, errs)

mutual
/-- The validation diagnostics of every qpy:format-float element of a subtree,
in document order: the source materializes the `//qpy:format-float` list
before any removal, so a format-float nested inside a removed or replaced one
is still passed to `_validate_format_float_element` and its errors inserted
into the shared collection (its own removal then happens invisibly inside the
detached subtree, where it does have a parent, so nothing raises). -/
def collectFmtErrsNode : Node → List RenderError
  | .element ns tag attrs text cs _ line =>
    (if ns = NS.qpy ∧ tag = "format-float" then
       (validateFormatFloat text (getAttr attrs NS.plain "precision")
         (getAttr attrs NS.plain "thousands-separator") line).2
     else []) ++ collectFmtErrsList cs
  | _ => []

def collectFmtErrsList : List Node → List RenderError
  | [] => []
  | n :: rest => collectFmtErrsNode n ++ collectFmtErrsList rest
end

mutual
/-- `_format_floats` below the root: a valid qpy:format-float is replaced by a
plain span holding the formatted value (keeping the tail); an invalid one is
removed with `_remove_element` (tail dropped) after emitting its
diagnostics.  In both cases the element's subtree leaves the output, but
format-floats nested in it were in the materialized list and still contribute
their validation diagnostics. -/
def formatFloatsNode (ctx : RenderContext) : Node → Node × List RenderError
  | .element ns tag attrs text cs tail line =>
    let (cs2, errs) := formatFloatsList ctx cs
    (.element ns tag attrs text cs2 tail line, errs)
  | n => (n, [])

def formatFloatsList (ctx : RenderContext) : List Node → List Node × List RenderError
  | [] => ([], [])
  | n :: rest =>
    match n with
    | .element NS.qpy "format-float" attrs text cs tail line =>
      let (data, verrs) := validateFormatFloat text (getAttr attrs NS.plain "precision")
        (getAttr attrs NS.plain "thousands-separator") line
      let nested := collectFmtErrsList cs
      let (rest2, rerrs) := formatFloatsList ctx rest
      (match data with
       | some (t, prec, thou) =>
         let strip := (getAttr attrs NS.plain "strip-zeros").isSome
         let span : Node :=
           .element NS.plain "span" [] (some (ctx.formatFloatValue t prec strip thou)) [] tail none
         (span :: rest2, verrs ++ nested ++ rerrs)
       | none => (rest2, verrs ++ nested ++ rerrs))
    | _ =>
      let (n2, nerrs) := formatFloatsNode ctx n
      let (rest2, rerrs) := formatFloatsList ctx rest
      (n2 :: rest2, nerrs ++ rerrs)
end

/-- `_format_floats` at document level: an invalid qpy:format-float root hits
`_remove_element` on a parentless node and raises; a valid one is left in
place because the replacement is guarded by `parent is not None`. -/
def formatFloatsDoc (ctx : RenderContext) : Node → Except Unit (Node × List RenderError)
  | .element NS.qpy "format-float" attrs text cs tail line =>
    let (data, _) := validateFormatFloat text (getAttr attrs NS.plain "precision")
      (getAttr attrs NS.plain "thousands-separator") line
    (match data with
     | some _ =>
       let (cs2, cerrs) := formatFloatsList ctx cs
       .ok (.element NS.qpy "format-float" attrs text cs2 tail line, cerrs)
     | none => .error ())
  | .element ns tag attrs text cs tail line =>
    let (cs2, errs) := formatFloatsList ctx cs
    .ok (.element ns tag attrs text cs2 tail line, errs)
  | n => .ok (n, [])

/- ============================================================
   Pass 10: _clean_up
   ============================================================ -/

mutual
/-- UnknownElementError for every qpy-namespaced element of a removed subtree,
in document order (the `//qpy:*` list was materialized before any removal). -/
def collectQpyErrsNode : Node → List RenderError
  | .element ns _ _ _ cs _ line =>
    (if ns = NS.qpy then [⟨.unknownElementErr, line⟩] else []) ++ collectQpyErrsList cs
  | _ => []

def collectQpyErrsList : List Node → List RenderError
  | [] => []
  | n :: rest => collectQpyErrsNode n ++ collectQpyErrsList rest
end

mutual
/-- `_clean_up` below the root: every remaining qpy-namespaced element is
removed (emitting UnknownElementError, also for nested ones), every
qpy-namespaced attribute is stripped, every comment is removed, and XHTML
elements lose their namespace (the serialized tag is the plain local name). -/
def cleanNode : Node → Option Node × List RenderError
  | .element ns tag attrs text cs tail line =>
    if ns = NS.qpy then (none, ⟨.unknownElementErr, line⟩ :: collectQpyErrsList cs)
    else
      let attrs2 := attrs.filter (fun a => !(a.ns = NS.qpy))
      let (cs2, errs) := cleanList cs
      let ns2 := if ns = NS.xhtml then NS.plain else ns
      (some (.element ns2 tag attrs2 text cs2 tail line), errs)
  | .comment _ _ _ => (none, [])
  | n => (some n, [])

def cleanList : List Node → List Node × List RenderError
  | [] => ([], [])
  | n :: rest =>
    let (n2, nerrs) := cleanNode n
    let (rest2, rerrs) := cleanList rest
    (match n2 with
     | some m => m :: rest2
     | none => rest2, nerrs ++ rerrs)
end

/-- `_clean_up` at document level: a qpy-namespaced root makes
`_remove_element` raise on a parentless node (after inserting its
UnknownElementError, both lost to the exception). -/
def cleanUpDoc : Node → Except Unit (Node × List RenderError)
  | .element NS.qpy _ _ _ _ _ _ => .error ()
  | n =>
    let (n2, errs) := cleanNode n
    match n2 with
    | some m => .ok (m, errs)
    | none => .error ()

/- ============================================================
   The render() pipeline
   ============================================================ -/

/-- The ten transformation passes. -/
inductive PassTag where
  | resolvePlaceholders
  | hideUnwantedFeedback
  | hideIfRole
  | setInputValuesAndReadonly
  | softenValidation
  | defuseButtons
  | shuffleContents
  | addStyles
  | formatFloats
  | cleanUp
deriving DecidableEq, Repr

/-- The pass sequence exactly as executed by `QuestionUIRenderer.render`
(lines 229-239): `_clean_up` runs last, after `_add_styles` and
`_format_floats`. -/
def renderPasses : List PassTag :=
  [.resolvePlaceholders, .hideUnwantedFeedback, .hideIfRole, .setInputValuesAndReadonly,
   .softenValidation, .defuseButtons, .shuffleContents, .addStyles, .formatFloats, .cleanUp]

/-- The pass order asserted by the spec's pipeline section (from the spec's
words, for comparison): clean up as pass 8, before add-styling-classes and
format-floats. -/
def specClaimedPassOrder : List PassTag :=
  [.resolvePlaceholders, .hideUnwantedFeedback, .hideIfRole, .setInputValuesAndReadonly,
   .softenValidation, .defuseButtons, .shuffleContents, .cleanUp, .addStyles, .formatFloats]

/-- Dispatches one pass over the document, returning the transformed document
and the diagnostics it emitted in document order (or the crash of an
lxml-level ValueError). -/
def runPass (ctx : RenderContext) : PassTag → Node → Except Unit (Node × List RenderError)
  | .resolvePlaceholders, d => resolvePlaceholdersNode ctx d
  | .hideUnwantedFeedback, d => hideFeedbackDoc ctx.options d
  | .hideIfRole, d => hideIfRoleDoc ctx.options d
  | .setInputValuesAndReadonly, d => .ok (setInputValuesNode ctx d, [])
  | .softenValidation, d => .ok (softenValidationNode d, [])
  | .defuseButtons, d => .ok (defuseButtonsNode d, [])
  | .shuffleContents, d => .ok (shuffleContentsDoc ctx d)
  | .addStyles, d => .ok (addStylesNode d, [])
  | .formatFloats, d => formatFloatsDoc ctx d
  | .cleanUp, d => cleanUpDoc d

/-- Runs one pass against the pipeline state, inserting its diagnostics into
the shared collection as they are emitted. -/
def applyPass (ctx : RenderContext) (st : Except Unit (Node × List RenderError))
    (t : PassTag) : Except Unit (Node × List RenderError) :=
  match st with
  | .error e => .error e
  | .ok (d, coll) =>
    match runPass ctx t d with
    | .error e => .error e
    | .ok (d2, emitted) => .ok (d2, emitted.foldl (fun c e => insort e c) coll)

/-- The pass sequence of `render()`, starting from the document and the
collection accumulated at construction time (a possible XMLSyntaxError). -/
def runPipeline (ctx : RenderContext) (d : Node) (coll : List RenderError) :
    Except Unit (Node × List RenderError) :=
  renderPasses.foldl (applyPass ctx) (.ok (d, coll))

def serializeAttrs (attrs : List NAttr) : String :=
  attrs.foldl (fun s a => s ++ " " ++ a.name ++ "=\"" ++ a.value ++ "\"") ""

mutual
/-- A plain model of `etree.tostring(..., method="html")` over the final
tree (whitespace pretty-printing and void-element special cases are
abstracted; no claim depends on them). -/
def serializeNode : Node → String
  | .element _ tag attrs text cs tail _ =>
    "<" ++ tag ++ serializeAttrs attrs ++ ">" ++ (text.getD "") ++ serializeList cs
      ++ "</" ++ tag ++ ">" ++ (tail.getD "")
  | .comment t tail _ => "<!--" ++ t ++ "-->" ++ (tail.getD "")
  | .procInst tgt txt tail _ => "<?" ++ tgt ++ " " ++ (txt.getD "") ++ "?>" ++ (tail.getD "")

def serializeList : List Node → String
  | [] => ""
  | n :: rest => serializeNode n ++ serializeList rest
end

/-- The state a `QuestionUIRenderer` holds across `render()` calls: the owned
document, the error collection (already holding a syntax diagnostic when the
constructor had to re-parse leniently) and the `_html` cache, `None` until the
first render. -/
structure RendererState where
  doc : Node
  errors : List RenderError
  html : Option String

/-- `QuestionUIRenderer.render`: when `_html` is `None`, run the ten passes in
order, serialize, and cache; otherwise return the cached pair unchanged. -/
def render (ctx : RenderContext) (s : RendererState) :
    Except Unit ((String × List RenderError) × RendererState) :=
  match s.html with
  | some h => .ok ((h, s.errors), s)
  | none =>
    match runPipeline ctx s.doc s.errors with
    | .error e => .error e
    | .ok (d2, coll) =>
      let h := serializeNode d2
      .ok ((h, coll), ⟨d2, coll, some h⟩)

mutual
/-- No qpy-namespaced element, no qpy-namespaced attribute and no comment
anywhere in the subtree. -/
def noQpyResidue : Node → Bool
  | .element ns _ attrs _ cs _ _ =>
    !(ns = NS.qpy) && attrs.all (fun a => !(a.ns = NS.qpy)) && noQpyResidueList cs
  | .comment _ _ _ => false
  | .procInst _ _ _ _ => true

def noQpyResidueList : List Node → Bool
  | [] => true
  | n :: rest => noQpyResidue n && noQpyResidueList rest
end

mutual
theorem cleanNode_residue : ∀ (n m : Node), (cleanNode n).1 = some m → noQpyResidue m = true
  | .element ns tag attrs text cs tail line, m, h => by
    simp only [cleanNode] at h
    by_cases hq : ns = NS.qpy
    · rw [if_pos hq] at h
      simp at h
    · rw [if_neg hq] at h
      simp only [Option.some.injEq] at h
      subst h
      simp only [noQpyResidue, Bool.and_eq_true]
      refine ⟨⟨?_, ?_⟩, ?_⟩
      · cases ns <;> simp_all
      · simp only [List.all_eq_true, List.mem_filter]
        intro a ha
        exact ha.2
      · exact cleanList_residue cs
  | .comment t tail line, m, h => by simp [cleanNode] at h
  | .procInst tgt txt tail line, m, h => by
    simp only [cleanNode, Option.some.injEq] at h
    subst h
    simp [noQpyResidue]

theorem cleanList_residue : ∀ (l : List Node), noQpyResidueList (cleanList l).1 = true
  | [] => by simp [cleanList, noQpyResidueList]
  | n :: rest => by
    simp only [cleanList]
    cases ho : (cleanNode n).1 with
    | some m =>
      simp only [ho, noQpyResidueList, Bool.and_eq_true]
      exact ⟨cleanNode_residue n m ho, cleanList_residue rest⟩
    | none =>
      simp only [ho]
      exact cleanList_residue rest
end

theorem cleanUpDoc_residue (n m : Node) (errs : List RenderError)
    (h : cleanUpDoc n = .ok (m, errs)) : noQpyResidue m = true := by
  unfold cleanUpDoc at h
  split at h
  · simp at h
  · cases ho : (cleanNode n).1 with
    | some m2 =>
      rename_i hfall
      simp only [ho] at h
      simp only [Except.ok.injEq, Prod.mk.injEq] at h
      obtain ⟨hm, -⟩ := h
      subst hm
      exact cleanNode_residue n m2 ho
    | none => simp [ho] at h

/-- C1 counterexample: the pass sequence executed by render() is not the
order listed in the spec's pipeline (which places clean-up before
add-styling-classes and format-floats). -/
theorem render_pass_order_cex : renderPasses ≠ specClaimedPassOrder := by decide

/-- C1 (amended): render() executes the passes in exactly the source order -
resolve placeholders, hide unwanted feedback, hide by role, bind input values
and readonly, soften validation, defuse buttons, shuffle contents, add styling
classes, format floats, clean up: the pipeline fold is literally the nested
application of the ten passes with clean-up applied last (after
add-styling-classes and format-floats, at indices 7 and 8 against 9). -/
theorem render_pass_order (ctx : RenderContext) (st : Except Unit (Node × List RenderError)) :
    renderPasses.foldl (applyPass ctx) st
      = applyPass ctx (applyPass ctx (applyPass ctx (applyPass ctx (applyPass ctx
          (applyPass ctx (applyPass ctx (applyPass ctx (applyPass ctx (applyPass ctx
          st .resolvePlaceholders) .hideUnwantedFeedback) .hideIfRole)
          .setInputValuesAndReadonly) .softenValidation) .defuseButtons) .shuffleContents)
          .addStyles) .formatFloats) .cleanUp
    ∧ renderPasses.indexOf PassTag.cleanUp = 9
    ∧ renderPasses.indexOf PassTag.addStyles = 7
    ∧ renderPasses.indexOf PassTag.formatFloats = 8
    ∧ (∀ d coll, runPipeline ctx d coll = renderPasses.foldl (applyPass ctx) (.ok (d, coll))) :=
  ⟨by simp [renderPasses, List.foldl], by decide, by decide, by decide, fun d coll => rfl⟩

/-- C2: whenever render() returns (on a fresh renderer), the document it
serializes into the returned HTML contains no qpy-namespaced element, no
qpy-namespaced attribute and no XML comment, and the returned HTML is exactly
the serialization of that document. -/
theorem render_output_qpy_free (ctx : RenderContext) (s : RendererState)
    (p : String × List RenderError) (s2 : RendererState)
    (hfresh : s.html = none) (h : render ctx s = .ok (p, s2)) :
    noQpyResidue s2.doc = true ∧ p.1 = serializeNode s2.doc := by
  unfold render at h
  rw [hfresh] at h
  cases hp : runPipeline ctx s.doc s.errors with
  | error e => rw [hp] at h; simp at h
  | ok pr =>
    obtain ⟨d2, coll⟩ := pr
    rw [hp] at h
    simp only [Except.ok.injEq, Prod.mk.injEq] at h
    obtain ⟨⟨hp1, -⟩, hs2⟩ := h
    -- peel the final clean-up application off the pipeline fold
    rw [show runPipeline ctx s.doc s.errors
        = applyPass ctx (List.foldl (applyPass ctx) (.ok (s.doc, s.errors))
            [.resolvePlaceholders, .hideUnwantedFeedback, .hideIfRole,
             .setInputValuesAndReadonly, .softenValidation, .defuseButtons,
             .shuffleContents, .addStyles, .formatFloats]) .cleanUp from by
      simp [runPipeline, renderPasses, List.foldl]] at hp
    cases hst : List.foldl (applyPass ctx) (Except.ok (s.doc, s.errors))
        [PassTag.resolvePlaceholders, PassTag.hideUnwantedFeedback, PassTag.hideIfRole,
         PassTag.setInputValuesAndReadonly, PassTag.softenValidation, PassTag.defuseButtons,
         PassTag.shuffleContents, PassTag.addStyles, PassTag.formatFloats] with
    | error e => rw [hst] at hp; simp [applyPass] at hp
    | ok pr9 =>
      obtain ⟨d9, c9⟩ := pr9
      rw [hst] at hp
      simp only [applyPass, runPass] at hp
      cases hcu : cleanUpDoc d9 with
      | error e => rw [hcu] at hp; simp at hp
      | ok pr10 =>
        obtain ⟨d10, em⟩ := pr10
        rw [hcu] at hp
        simp only [Except.ok.injEq, Prod.mk.injEq] at hp
        obtain ⟨hd, -⟩ := hp
        subst hd
        subst hs2
        exact ⟨cleanUpDoc_residue d9 _ em hcu, rfl⟩

/-- C7: a second render() call on the same renderer returns the identical
(html, diagnostics) pair and leaves the state untouched (no pass re-executes,
the document is not mutated further, no diagnostics accumulate). -/
theorem render_memoized (ctx : RenderContext) (s : RendererState)
    (p : String × List RenderError) (s2 : RendererState)
    (h : render ctx s = .ok (p, s2)) : render ctx s2 = .ok (p, s2) := by
  unfold render at h ⊢
  cases hh : s.html with
  | some h0 =>
    rw [hh] at h
    simp only [Except.ok.injEq, Prod.mk.injEq] at h
    obtain ⟨hp, hs⟩ := h
    subst hs
    rw [hh]
    simp [hp]
  | none =>
    rw [hh] at h
    cases hp : runPipeline ctx s.doc s.errors with
    | error e => rw [hp] at h; simp at h
    | ok pr =>
      obtain ⟨d2, coll⟩ := pr
      rw [hp] at h
      simp only [Except.ok.injEq, Prod.mk.injEq] at h
      obtain ⟨hp1, hs2⟩ := h
      subst hs2
      simp [hp1]

/-- A concrete context for the witnesses: no placeholders, default display
options, no prior responses, and trivial instantiations of the abstracted
library boundaries. -/
def sampleCtx : RenderContext where
  placeholders := []
  options := {}
  attempt := none
  shuffle := fun l => l
  parseFragment := fun _ => ⟨none, []⟩
  cleanFragment := fun f => f
  formatFloatValue := fun t _ _ _ => t

/-- A fresh renderer state on a small document carrying a qpy-namespaced
attribute and a comment. -/
def sampleState : RendererState where
  doc := .element NS.xhtml "div" [⟨NS.qpy, "x", "1"⟩] none [.comment "c" none none] none none
  errors := []
  html := none

/-- The state after the first render of `sampleState`. -/
def sampleRendered : RendererState where
  doc := .element NS.plain "div" [] none [] none none
  errors := []
  html := some "<div></div>"

/-- Witness for C7. -/
theorem render_memoized_witness :
    render sampleCtx sampleState = .ok (("<div></div>", []), sampleRendered)
    ∧ render sampleCtx sampleRendered = .ok (("<div></div>", []), sampleRendered) :=
  ⟨by rfl, render_memoized sampleCtx sampleState ("<div></div>", []) sampleRendered (by rfl)⟩

/-- Witness for C2. -/
theorem render_output_qpy_free_witness :
    sampleState.html = none
    ∧ render sampleCtx sampleState = .ok (("<div></div>", []), sampleRendered)
    ∧ (noQpyResidue sampleRendered.doc = true
        ∧ ("<div></div>", ([] : List RenderError)).1 = serializeNode sampleRendered.doc) :=
  ⟨rfl, by rfl, render_output_qpy_free sampleCtx sampleState ("<div></div>", []) sampleRendered
    rfl (by rfl)⟩

/-- C4 counterexample: an element whose qpy:if-role value is the empty string
is kept even when the viewer holds no roles at all — the walrus guard
`if attr := element.get(...)` treats the empty string as falsy and skips the
element, so the claim's unconditional-removal reading fails. -/
theorem hide_if_role_empty_attr_cex :
    hideIfRoleDoc { roles := [] }
        (.element NS.xhtml "div" [] none
          [.element NS.xhtml "span" [⟨NS.qpy, "if-role", ""⟩] none [] none none] none none)
      = .ok (.element NS.xhtml "div" [] none
          [.element NS.xhtml "span" [⟨NS.qpy, "if-role", ""⟩] none [] none none] none none,
        []) := by rfl

/-- C4 (amended): for an element carrying qpy:if-role with a non-empty value,
the value is split on whitespace/pipe runs and uppercased; if any token
(including the empty token produced by a leading or trailing separator) is not
a recognized role, an InvalidAttributeValueError is emitted and the element is
removed unconditionally; otherwise the element is kept exactly when some
enumeration role is both listed and held by the viewer, and removed silently
otherwise.  An element whose qpy:if-role value is the empty string is left in
place (the attribute is later stripped by clean-up). -/
theorem hide_if_role_behavior (opts : QuestionDisplayOptions) (v : String)
    (cns : NS) (ctag : String) (cattrs : List NAttr) (ctext : Option String)
    (ctail : Option String) (cline : Option Nat)
    (hattr : getAttr cattrs NS.qpy "if-role" = some v) :
    (v = "" →
      hideIfRoleDoc opts (.element NS.xhtml "div" [] none
          [.element cns ctag cattrs ctext [] ctail cline] none none)
        = .ok (.element NS.xhtml "div" [] none
            [.element cns ctag cattrs ctext [] ctail cline] none none, []))
    ∧ (v ≠ "" →
        ((reSplitRoles v).map strToUpper).filter (fun t => !roleStrings.contains t) ≠ [] →
      hideIfRoleDoc opts (.element NS.xhtml "div" [] none
          [.element cns ctag cattrs ctext [] ctail cline] none none)
        = .ok (.element NS.xhtml "div" [] none [] none none,
            [⟨.invalidAttributeValueErr, cline⟩]))
    ∧ (v ≠ "" →
        ((reSplitRoles v).map strToUpper).filter (fun t => !roleStrings.contains t) = [] →
        allRoles.any (fun r =>
          ((reSplitRoles v).map strToUpper).contains r.toStr && opts.roles.contains r) = true →
      hideIfRoleDoc opts (.element NS.xhtml "div" [] none
          [.element cns ctag cattrs ctext [] ctail cline] none none)
        = .ok (.element NS.xhtml "div" [] none
            [.element cns ctag cattrs ctext [] ctail cline] none none, []))
    ∧ (v ≠ "" →
        ((reSplitRoles v).map strToUpper).filter (fun t => !roleStrings.contains t) = [] →
        allRoles.any (fun r =>
          ((reSplitRoles v).map strToUpper).contains r.toStr && opts.roles.contains r) = false →
      hideIfRoleDoc opts (.element NS.xhtml "div" [] none
          [.element cns ctag cattrs ctext [] ctail cline] none none)
        = .ok (.element NS.xhtml "div" [] none [] none none, [])) := by
  have hroot : getAttr ([] : List NAttr) NS.qpy "if-role" = none := rfl
  refine ⟨?_, ?_, ?_, ?_⟩
  · intro hv
    have hdec : ifRoleDecision opts v = .keep := by
      unfold ifRoleDecision
      rw [if_pos hv]
    simp [hideIfRoleDoc, hroot, hideIfRoleList, hideIfRoleNode, hattr, hdec]
  · intro hv hinv
    have hdec : ifRoleDecision opts v = .removeError := by
      unfold ifRoleDecision
      rw [if_neg hv]
      simp only []
      rw [if_pos hinv]
    simp [hideIfRoleDoc, hroot, hideIfRoleList, hideIfRoleNode, hattr, hdec,
      collectIfRoleErrsList]
  · intro hv hval hany
    have hdec : ifRoleDecision opts v = .keep := by
      unfold ifRoleDecision
      rw [if_neg hv]
      simp only []
      rw [if_neg (fun hc => hc hval), if_pos hany]
    simp [hideIfRoleDoc, hroot, hideIfRoleList, hideIfRoleNode, hattr, hdec]
  · intro hv hval hany
    have hdec : ifRoleDecision opts v = .removeQuiet := by
      unfold ifRoleDecision
      rw [if_neg hv]
      simp only []
      rw [if_neg (fun hc => hc hval), if_neg (by rw [hany]; decide)]
    simp [hideIfRoleDoc, hroot, hideIfRoleList, hideIfRoleNode, hattr, hdec,
      collectIfRoleErrsList]

/-- Witness for C4 at v = "teacher" with a TEACHER viewer (kept), exercising
the case-insensitive match. -/
theorem hide_if_role_behavior_witness :
    (getAttr [⟨NS.qpy, "if-role", "teacher"⟩] NS.qpy "if-role" = some "teacher")
    ∧ (("teacher" : String) ≠ ""
      ∧ ((reSplitRoles "teacher").map strToUpper).filter
          (fun t => !roleStrings.contains t) = []
      ∧ allRoles.any (fun r => ((reSplitRoles "teacher").map strToUpper).contains r.toStr
          && ({ roles := [.TEACHER] } : QuestionDisplayOptions).roles.contains r) = true)
    ∧ hideIfRoleDoc { roles := [.TEACHER] } (.element NS.xhtml "div" [] none
          [.element NS.xhtml "span" [⟨NS.qpy, "if-role", "teacher"⟩] none [] none none]
          none none)
        = .ok (.element NS.xhtml "div" [] none
            [.element NS.xhtml "span" [⟨NS.qpy, "if-role", "teacher"⟩] none [] none none]
            none none, []) :=
  ⟨by decide, ⟨by decide, by decide, by decide⟩,
    ((hide_if_role_behavior { roles := [.TEACHER] } "teacher" NS.xhtml "span"
      [⟨NS.qpy, "if-role", "teacher"⟩] none none none (by decide)).2.2.1
      (by decide) (by decide) (by decide))⟩

theorem validateFormatFloat_invalid_text (t : String) (precAttr thouAttr : Option String)
    (line : Option Nat) (h : matchesFloatGrammar t = false) :
    (validateFormatFloat (some t) precAttr thouAttr line).1 = none
    ∧ (⟨RenderErrorKind.conversionErr, line⟩ : RenderError)
        ∈ (validateFormatFloat (some t) precAttr thouAttr line).2 := by
  unfold validateFormatFloat
  dsimp only
  rw [h]
  simp only [Bool.false_eq_true, if_false]
  rw [if_neg (by simp)]
  exact ⟨rfl, by simp⟩

/-- C5 counterexample: a qpy:format-float element with absent text is removed
but no ConversionError (nor any other diagnostic) is emitted — the source
returns silently from `_validate_format_float_element` with a TODO comment. -/
theorem format_float_absent_text_cex :
    formatFloatsDoc sampleCtx (.element NS.xhtml "div" [] none
        [.element NS.qpy "format-float" [] none [] none none] none none)
      = .ok (.element NS.xhtml "div" [] none [] none none, []) := by rfl

/-- C5 (amended): a qpy:format-float element (below the root) whose text is
present but not a strictly-numeric literal of the accepted grammar is removed
from the output and a ConversionError is among the emitted diagnostics, and
render()'s pass returns normally (no raise); an element with absent text is
removed without emitting any diagnostic of its own — the diagnostics the pass
does emit are exactly those of the qpy:format-float descendants of the
removed subtree, which the source still validates because the
`//qpy:format-float` list is materialized before any removal. -/
theorem format_float_invalid_text (ctx : RenderContext) (fattrs : List NAttr)
    (t : String) (fcs : List Node) (ftail : Option String) (fline : Option Nat)
    (h : matchesFloatGrammar t = false) :
    (∃ errs, formatFloatsDoc ctx (.element NS.xhtml "div" [] none
        [.element NS.qpy "format-float" fattrs (some t) fcs ftail fline] none none)
      = .ok (.element NS.xhtml "div" [] none [] none none, errs)
      ∧ (⟨RenderErrorKind.conversionErr, fline⟩ : RenderError) ∈ errs)
    ∧ formatFloatsDoc ctx (.element NS.xhtml "div" [] none
        [.element NS.qpy "format-float" fattrs none fcs ftail fline] none none)
      = .ok (.element NS.xhtml "div" [] none [] none none, collectFmtErrsList fcs) := by
  obtain ⟨h1, h2⟩ := validateFormatFloat_invalid_text t (getAttr fattrs NS.plain "precision")
    (getAttr fattrs NS.plain "thousands-separator") fline h
  constructor
  · refine ⟨(validateFormatFloat (some t) (getAttr fattrs NS.plain "precision")
      (getAttr fattrs NS.plain "thousands-separator") fline).2 ++ collectFmtErrsList fcs,
      ?_, List.mem_append.mpr (Or.inl h2)⟩
    simp only [formatFloatsDoc, formatFloatsList]
    cases hv : validateFormatFloat (some t) (getAttr fattrs NS.plain "precision")
        (getAttr fattrs NS.plain "thousands-separator") fline with
    | mk o errs =>
      rw [hv] at h1
      simp only at h1
      subst h1
      simp
  · simp only [formatFloatsDoc, formatFloatsList, validateFormatFloat]
    simp

/-- Witness for C5 with text "abc", and a nested qpy:format-float child with
text "x" whose ConversionError is still emitted when the absent-text parent is
removed. -/
theorem format_float_invalid_text_witness :
    matchesFloatGrammar "abc" = false
    ∧ ((∃ errs, formatFloatsDoc sampleCtx (.element NS.xhtml "div" [] none
          [.element NS.qpy "format-float" [] (some "abc")
            [.element NS.qpy "format-float" [] (some "x") [] none none] none none] none none)
        = .ok (.element NS.xhtml "div" [] none [] none none, errs)
        ∧ (⟨RenderErrorKind.conversionErr, none⟩ : RenderError) ∈ errs)
      ∧ formatFloatsDoc sampleCtx (.element NS.xhtml "div" [] none
          [.element NS.qpy "format-float" [] none
            [.element NS.qpy "format-float" [] (some "x") [] none none] none none] none none)
        = .ok (.element NS.xhtml "div" [] none [] none none,
            collectFmtErrsList [.element NS.qpy "format-float" [] (some "x") [] none none]))
    ∧ collectFmtErrsList [.element NS.qpy "format-float" [] (some "x") [] none none]
        = [⟨RenderErrorKind.conversionErr, none⟩] :=
  ⟨by decide, format_float_invalid_text sampleCtx [] "abc"
      [.element NS.qpy "format-float" [] (some "x") [] none none] none none (by decide),
    by rfl⟩

/-- C8 counterexample: an input carrying required="" (an empty attribute
value, which in HTML still means required) loses the native attribute but no
data-qpy_required and no aria-required is set — `if value:` treats the empty
string as falsy and skips the re-expression. -/
theorem soften_validation_empty_value_cex :
    softenValidationNode (.element NS.xhtml "input" [⟨NS.plain, "required", ""⟩]
        none [] none none)
      = .element NS.xhtml "input" [] none [] none none := by rfl

/-- C8 (amended): for an element of the applicable kind carrying one of the
six validation attributes with a non-empty value, the pass removes the native
attribute and sets data-qpy_<attr> to the preserved value (a boolean-style
value equal to the attribute name becomes "true"); required additionally sets
aria-required, and min/max set aria-valuemin/aria-valuemax to the same value.
An attribute with an empty value is removed without setting any data or aria
attribute. -/
theorem soften_validation_behavior (v tag : String) :
    (tag = "input" →
      (v ≠ "" → softenElementAttrs tag [⟨NS.plain, "pattern", v⟩]
          = [⟨NS.plain, "data-qpy_pattern", if v = "pattern" then "true" else v⟩])
      ∧ (v = "" → softenElementAttrs tag [⟨NS.plain, "pattern", v⟩] = []))
    ∧ (tag = "input" ∨ tag = "select" ∨ tag = "textarea" →
      (v ≠ "" → softenElementAttrs tag [⟨NS.plain, "required", v⟩]
          = [⟨NS.plain, "data-qpy_required", if v = "required" then "true" else v⟩,
             ⟨NS.plain, "aria-required", if v = "required" then "true" else v⟩])
      ∧ (v = "" → softenElementAttrs tag [⟨NS.plain, "required", v⟩] = []))
    ∧ (tag = "input" ∨ tag = "textarea" →
      (v ≠ "" → softenElementAttrs tag [⟨NS.plain, "minlength", v⟩]
          = [⟨NS.plain, "data-qpy_minlength", if v = "minlength" then "true" else v⟩])
      ∧ (v = "" → softenElementAttrs tag [⟨NS.plain, "minlength", v⟩] = []))
    ∧ (tag = "input" ∨ tag = "textarea" →
      (v ≠ "" → softenElementAttrs tag [⟨NS.plain, "maxlength", v⟩]
          = [⟨NS.plain, "data-qpy_maxlength", if v = "maxlength" then "true" else v⟩])
      ∧ (v = "" → softenElementAttrs tag [⟨NS.plain, "maxlength", v⟩] = []))
    ∧ (tag = "input" →
      (v ≠ "" → softenElementAttrs tag [⟨NS.plain, "min", v⟩]
          = [⟨NS.plain, "data-qpy_min", if v = "min" then "true" else v⟩,
             ⟨NS.plain, "aria-valuemin", if v = "min" then "true" else v⟩])
      ∧ (v = "" → softenElementAttrs tag [⟨NS.plain, "min", v⟩] = []))
    ∧ (tag = "input" →
      (v ≠ "" → softenElementAttrs tag [⟨NS.plain, "max", v⟩]
          = [⟨NS.plain, "data-qpy_max", if v = "max" then "true" else v⟩,
             ⟨NS.plain, "aria-valuemax", if v = "max" then "true" else v⟩])
      ∧ (v = "" → softenElementAttrs tag [⟨NS.plain, "max", v⟩] = [])) := by
  refine ⟨?_, ?_, ?_, ?_, ?_, ?_⟩
  · rintro rfl
    constructor
    · intro hv
      simp [softenElementAttrs, softenOne, getAttr, removeAttr, setAttr, List.find?, hv]
    · rintro rfl
      simp [softenElementAttrs, softenOne, getAttr, removeAttr, setAttr, List.find?]
  · rintro (rfl | rfl | rfl) <;>
      exact ⟨fun hv => by
          simp [softenElementAttrs, softenOne, getAttr, removeAttr, setAttr, List.find?, hv],
        fun hv => by
          subst hv
          simp [softenElementAttrs, softenOne, getAttr, removeAttr, setAttr, List.find?]⟩
  · rintro (rfl | rfl) <;>
      exact ⟨fun hv => by
          simp [softenElementAttrs, softenOne, getAttr, removeAttr, setAttr, List.find?, hv],
        fun hv => by
          subst hv
          simp [softenElementAttrs, softenOne, getAttr, removeAttr, setAttr, List.find?]⟩
  · rintro (rfl | rfl) <;>
      exact ⟨fun hv => by
          simp [softenElementAttrs, softenOne, getAttr, removeAttr, setAttr, List.find?, hv],
        fun hv => by
          subst hv
          simp [softenElementAttrs, softenOne, getAttr, removeAttr, setAttr, List.find?]⟩
  · rintro rfl
    exact ⟨fun hv => by
        simp [softenElementAttrs, softenOne, getAttr, removeAttr, setAttr, List.find?, hv],
      fun hv => by
        subst hv
        simp [softenElementAttrs, softenOne, getAttr, removeAttr, setAttr, List.find?]⟩
  · rintro rfl
    exact ⟨fun hv => by
        simp [softenElementAttrs, softenOne, getAttr, removeAttr, setAttr, List.find?, hv],
      fun hv => by
        subst hv
        simp [softenElementAttrs, softenOne, getAttr, removeAttr, setAttr, List.find?]⟩

/-- Witness for C8 at v = "required" (boolean-style) on an input. -/
theorem soften_validation_behavior_witness :
    ("required" : String) ≠ "" ∧ ("input" = "input" ∨ ("input" : String) = "select"
      ∨ ("input" : String) = "textarea")
    ∧ softenElementAttrs "input" [⟨NS.plain, "required", "required"⟩]
        = [⟨NS.plain, "data-qpy_required",
            if ("required" : String) = "required" then "true" else "required"⟩,
           ⟨NS.plain, "aria-required",
            if ("required" : String) = "required" then "true" else "required"⟩] :=
  ⟨by decide, Or.inl rfl,
    ((soften_validation_behavior "required" "input").2.1 (Or.inl rfl)).1 (by decide)⟩

mutual
/-- The text content of a node: the lxml `text` slot followed by each child's
content and tail. -/
def nodeText : Node → String
  | .element _ _ _ text cs _ _ => (text.getD "") ++ sibsText cs
  | _ => ""

def sibsText : List Node → String
  | [] => ""
  | n :: rest => nodeText n ++ ((Node.tail n).getD "") ++ sibsText rest
end

theorem str_empty_append (s : String) : "" ++ s = s := by
  cases s with
  | mk d => rfl

theorem str_append_empty (s : String) : s ++ "" = s := by
  cases s with
  | mk d =>
    show String.mk (d ++ []) = String.mk d
    rw [List.append_nil]

theorem str_append_assoc (a b c : String) : a ++ b ++ c = a ++ (b ++ c) := by
  cases a with
  | mk x =>
    cases b with
    | mk y =>
      cases c with
      | mk z =>
        show String.mk (x ++ y ++ z) = String.mk (x ++ (y ++ z))
        rw [List.append_assoc]

theorem sibsText_append (a b : List Node) : sibsText (a ++ b) = sibsText a ++ sibsText b := by
  induction a with
  | nil => simp [sibsText, str_empty_append]
  | cons n rest ih =>
    simp only [List.cons_append, sibsText, str_append_assoc]
    rw [show rest.append b = rest ++ b from rfl, ih]

theorem nodeText_withTail (n : Node) (t : Option String) :
    nodeText (n.withTail t) = nodeText n := by
  cases n <;> rfl

theorem tail_withTail (n : Node) (t : Option String) : (n.withTail t).tail = t := by
  cases n <;> rfl

theorem foldl_push (l : List Node) (acc : SibAcc) :
    l.foldl SibAcc.push acc = ⟨acc.text, l.reverse ++ acc.rev⟩ := by
  induction l generalizing acc with
  | nil => simp
  | cons n rest ih =>
    rw [List.foldl_cons, ih]
    simp [SibAcc.push, List.reverse_cons, List.append_assoc]

/-- The text content that the sibling accumulator will contribute to its
parent element. -/
def accText (acc : SibAcc) : String :=
  (acc.text.getD "") ++ sibsText acc.rev.reverse

theorem accText_addText (acc : SibAcc) (t : String) :
    accText (acc.addText t) = accText acc ++ t := by
  cases acc with
  | mk T rev =>
    cases rev with
    | nil =>
      simp only [SibAcc.addText, accText, List.reverse_nil, sibsText]
      simp [str_append_empty, str_append_assoc]
    | cons n rest =>
      simp only [SibAcc.addText, accText, List.reverse_cons, sibsText_append, sibsText,
        nodeText_withTail, tail_withTail]
      simp [str_append_empty, str_append_assoc]

/-- The fragment spliced for a resolved placeholder with a non-plain cleaning
option: parse the raw value, sanitizing unless the option is noclean. -/
def resolvedFragment (ctx : RenderContext) (key opt : String) : Fragment :=
  if opt = "noclean" then ctx.parseFragment ((lookupStr ctx.placeholders key).getD "")
  else ctx.cleanFragment (ctx.parseFragment ((lookupStr ctx.placeholders key).getD ""))

/-- The sibling accumulator after splicing a fragment at the start of an
empty sibling list: leading fragment text first, then the fragment's child
nodes. -/
def fragmentAcc (f : Fragment) : SibAcc :=
  List.foldl SibAcc.push
    (match f.text with
     | some ft => SibAcc.addText ⟨none, []⟩ ft
     | none => (⟨none, []⟩ : SibAcc))
    f.children

/-- C10: a placeholder processing instruction that fails validation is removed
with `_remove_element`, so the text that followed it (its tail) is dropped
from the output, while a successfully resolved instruction is removed with
`_remove_preserving_tail`: with option plain the raw value and the tail end up
as the parent's text, and with any other option the spliced fragment content
is followed by the tail. -/
theorem resolve_placeholder_tail (ctx : RenderContext) (pitext : Option String)
    (t : String) (pline : Option Nat) :
    (∀ verrs, validatePlaceholder ctx.placeholders pline pitext = .ok (none, verrs) →
      resolvePlaceholdersNode ctx (.element NS.xhtml "div" [] none
          [.procInst "p" pitext (some t) pline] none none)
        = .ok (.element NS.xhtml "div" [] none [] none none, verrs))
    ∧ (∀ key,
        validatePlaceholder ctx.placeholders pline pitext = .ok (some (key, "plain"), []) →
      resolvePlaceholdersNode ctx (.element NS.xhtml "div" [] none
          [.procInst "p" pitext (some t) pline] none none)
        = .ok (.element NS.xhtml "div" []
            (some ((lookupStr ctx.placeholders key).getD "" ++ t)) [] none none, []))
    ∧ (∀ key opt, opt ≠ "plain" →
        validatePlaceholder ctx.placeholders pline pitext = .ok (some (key, opt), []) →
      ∃ out pre, resolvePlaceholdersNode ctx (.element NS.xhtml "div" [] none
          [.procInst "p" pitext (some t) pline] none none)
        = .ok (out, []) ∧ nodeText out = pre ++ t) := by
  refine ⟨?_, ?_, ?_⟩
  · intro verrs hv
    simp only [resolvePlaceholdersNode, resolvePlaceholdersSibs, hv]
    dsimp only [bind, Except.instMonad, Except.bind]
    simp
  · intro key hv
    simp only [resolvePlaceholdersNode, resolvePlaceholdersSibs, hv]
    dsimp only [bind, Except.instMonad, Except.bind]
    simp [SibAcc.addText, str_empty_append, str_append_assoc]
  · intro key opt hopt hv
    refine ⟨.element NS.xhtml "div" []
        ((fragmentAcc (resolvedFragment ctx key opt)).addText t).text
        ((fragmentAcc (resolvedFragment ctx key opt)).addText t).rev.reverse none none,
      accText (fragmentAcc (resolvedFragment ctx key opt)), ?_, ?_⟩
    · simp only [resolvePlaceholdersNode, resolvePlaceholdersSibs, hv]
      dsimp only [bind, Except.instMonad, Except.bind]
      rw [if_neg hopt]
      simp [resolvedFragment, fragmentAcc]
    · have h1 : nodeText (.element NS.xhtml "div" []
          ((fragmentAcc (resolvedFragment ctx key opt)).addText t).text
          ((fragmentAcc (resolvedFragment ctx key opt)).addText t).rev.reverse none none)
          = accText ((fragmentAcc (resolvedFragment ctx key opt)).addText t) := rfl
      rw [h1, accText_addText]

/-- A context with one placeholder, for the C10 witness. -/
def phCtx : RenderContext := { sampleCtx with placeholders := [("k", "v")] }

/-- Witness for C10: the plain-success case keeps the tail "TAIL" in place,
the failure case (no key given) drops it. -/
theorem resolve_placeholder_tail_witness :
    (validatePlaceholder phCtx.placeholders none (some "k plain")
        = .ok (some ("k", "plain"), [])
      ∧ resolvePlaceholdersNode phCtx (.element NS.xhtml "div" [] none
          [.procInst "p" (some "k plain") (some "TAIL") none] none none)
        = .ok (.element NS.xhtml "div" []
            (some ((lookupStr phCtx.placeholders "k").getD "" ++ "TAIL")) [] none none, []))
    ∧ (validatePlaceholder phCtx.placeholders none none
        = .ok (none, [⟨RenderErrorKind.placeholderReferenceErr, none⟩])
      ∧ resolvePlaceholdersNode phCtx (.element NS.xhtml "div" [] none
          [.procInst "p" none (some "TAIL") none] none none)
        = .ok (.element NS.xhtml "div" [] none [] none none,
            [⟨RenderErrorKind.placeholderReferenceErr, none⟩])) :=
  ⟨⟨by rfl, (resolve_placeholder_tail phCtx (some "k plain") "TAIL" none).2.1 "k" (by rfl)⟩,
   ⟨by rfl, (resolve_placeholder_tail phCtx none "TAIL" none).1
      [⟨RenderErrorKind.placeholderReferenceErr, none⟩] (by rfl)⟩⟩
